import Mathlib

/-!
# Verification of the geodata-br converter core

A shallow embedding, in Lean 4, of the core data-model and serialization
layer of the geodata-br repository:

* `src/geodatabr/core/types.py` — the `Bytes` binary packing utility
  (Python 3, built on `io.BytesIO` and the `struct` module);
* `src/dtb/core/entities.py` — the six territorial entities, the
  `TerritorialData` tree with its `toDict` serializer, and
  `TerritorialBase.export` (Python 2);
* `src/lib/places/exporters/msgpack.py` — the MessagePack exporter;
* `src/lib/geodatabr/encoders/xml.py` — the XML encoder.

Conventions of the embedding:

* Python byte strings are `List Nat` (each entry < 256); Python unicode
  text (Python 3 `str`, Python 2 `unicode`) is `List Char`.
* Python `dict` / `OrderedDict` values are association lists with unique
  keys, written with `aset` (insert-or-update, preserving position, as
  CPython dicts do) and looked up with `alookup`.
* Fallible Python operations return `Except PyErr _`; an exception
  propagating out of a method is the `.error` case.
* Python floats are exact dyadic rationals `m * 2^e`, given by the pair
  `(m, e)`; `struct.pack('!f', x)` is the IEEE-754 binary32 encoding with
  round-to-nearest-even, modelled by `packFloatBE`.
-/

/-- Exceptions that the modelled Python code can raise. -/
inductive PyErr where
  /-- `struct.error` (bad argument type or size for a pack/unpack format). -/
  | structError : PyErr
  /-- `OverflowError` (e.g. a float too large for the `f` format). -/
  | overflowError : PyErr
  /-- `ValueError` (e.g. `chr` outside the Unicode range). -/
  | valueError : PyErr
  /-- `UnicodeEncodeError` from an `encode` call. -/
  | unicodeEncodeError : PyErr
  /-- `UnicodeDecodeError` from a `decode` call. -/
  | unicodeDecodeError : PyErr
  /-- `KeyError` for the given mapping key. -/
  | keyError (key : String) : PyErr
  /-- A plain `Exception(msg)`. -/
  | exception (msg : String) : PyErr
  deriving Repr, DecidableEq

/-! ## Association lists with Python dict semantics -/

/-- Lookup in an association list (`d[k]` returning `none` when absent). -/
def alookup {α β : Type} [DecidableEq α] : List (α × β) → α → Option β
  | [], _ => none
  | (k', v) :: rest, k => if k' = k then some v else alookup rest k

/-- `d[k] = v` on a Python dict: update in place when the key exists
(keeping its position, as CPython dicts and `OrderedDict` do), append
otherwise. -/
def aset {α β : Type} [DecidableEq α] : List (α × β) → α → β → List (α × β)
  | [], k, v => [(k, v)]
  | (k', v') :: rest, k, v =>
    if k' = k then (k', v) :: rest else (k', v') :: aset rest k v

/-- `del d[k]` on a Python dict: since keys of an `aset`-built association
list are unique, removing the binding of `k` is filtering it out; absent
keys raise `KeyError`. -/
def adel {α β : Type} [DecidableEq α] (m : List (α × β)) (k : α) (name : String) :
    Except PyErr (List (α × β)) :=
  match alookup m k with
  | none => .error (.keyError name)
  | some _ => .ok (m.filter (fun p => p.1 ≠ k))

/-- Map a function over the values of an association list. -/
def mapVals {α β γ : Type} (f : β → γ) (m : List (α × β)) : List (α × γ) :=
  m.map (fun p => (p.1, f p.2))

/-! ## Big-endian and little-endian byte strings -/

/-- The 2-byte big-endian encoding of `n % 2^16`. -/
def be2 (n : Nat) : List Nat := [n / 2^8 % 256, n % 256]

/-- The 4-byte big-endian encoding of `n % 2^32`. -/
def be4 (n : Nat) : List Nat :=
  [n / 2^24 % 256, n / 2^16 % 256, n / 2^8 % 256, n % 256]

/-- The 8-byte big-endian encoding of `n % 2^64`. -/
def be8 (n : Nat) : List Nat :=
  [n / 2^56 % 256, n / 2^48 % 256, n / 2^40 % 256, n / 2^32 % 256,
   n / 2^24 % 256, n / 2^16 % 256, n / 2^8 % 256, n % 256]

/-- The 4-byte little-endian (x86 native order) encoding of `n % 2^32`. -/
def le4 (n : Nat) : List Nat :=
  [n % 256, n / 2^8 % 256, n / 2^16 % 256, n / 2^24 % 256]

/-- The low `w` bits of the two's-complement representation of `n`. -/
def toTwos (w : Nat) (n : Int) : Nat := (n % ((2 ^ w : Nat) : Int)).toNat

/-! ## UTF-8 -/

/-- UTF-8 encoding of a single Unicode scalar value (total on `Nat`;
callers pass values below `0x110000` outside the surrogate range). -/
def utf8EncodeScalar (c : Nat) : List Nat :=
  if c < 0x80 then [c]
  else if c < 0x800 then [0xC0 + c / 64, 0x80 + c % 64]
  else if c < 0x10000 then
    [0xE0 + c / 4096, 0x80 + c / 64 % 64, 0x80 + c % 64]
  else
    [0xF0 + c / 262144, 0x80 + c / 4096 % 64, 0x80 + c / 64 % 64, 0x80 + c % 64]

/-- UTF-8 encoding of a unicode string. -/
def utf8Encode : List Char → List Nat
  | [] => []
  | c :: cs => utf8EncodeScalar c.toNat ++ utf8Encode cs

/-- Whether a byte is a UTF-8 continuation byte (`0b10xxxxxx`). -/
def isCont (b : Nat) : Prop := 0x80 ≤ b ∧ b < 0xC0

instance (b : Nat) : Decidable (isCont b) := by unfold isCont; infer_instance

/-- Decode one Unicode scalar value from the front of a UTF-8 byte string,
returning the code point and the remaining bytes. Rejects stray
continuation bytes, truncated sequences and overlong encodings. -/
def utf8DecodeOne : List Nat → Option (Nat × List Nat)
  | [] => none
  | b :: bs =>
    if b < 0x80 then some (b, bs)
    else if b < 0xC0 then none
    else if b < 0xE0 then
      match bs with
      | b1 :: bs' =>
        if isCont b1 then
          let c := (b - 0xC0) * 64 + (b1 - 0x80)
          if 0x80 ≤ c then some (c, bs') else none
        else none
      | _ => none
    else if b < 0xF0 then
      match bs with
      | b1 :: b2 :: bs' =>
        if isCont b1 ∧ isCont b2 then
          let c := (b - 0xE0) * 4096 + (b1 - 0x80) * 64 + (b2 - 0x80)
          if 0x800 ≤ c then some (c, bs') else none
        else none
      | _ => none
    else if b < 0xF8 then
      match bs with
      | b1 :: b2 :: b3 :: bs' =>
        if isCont b1 ∧ isCont b2 ∧ isCont b3 then
          let c := (b - 0xF0) * 262144 + (b1 - 0x80) * 4096 +
                   (b2 - 0x80) * 64 + (b3 - 0x80)
          if 0x10000 ≤ c ∧ c < 0x110000 then some (c, bs') else none
        else none
      | _ => none
    else none

/-- Decode a whole UTF-8 byte string into a unicode string. The fuel
argument bounds the number of decoded characters; each step consumes at
least one byte, so `bs.length` fuel always suffices. -/
def utf8DecodeLoop : Nat → List Nat → Option (List Char)
  | _, [] => some []
  | 0, _ :: _ => none
  | fuel + 1, b :: bs =>
    match utf8DecodeOne (b :: bs) with
    | none => none
    | some (n, rest) =>
      if h : n.isValidChar then
        (utf8DecodeLoop fuel rest).map (fun cs => Char.ofNatAux n h :: cs)
      else none

/-- Decode a whole UTF-8 byte string (`bytes.decode('utf-8')`). -/
def utf8Decode (bs : List Nat) : Option (List Char) :=
  utf8DecodeLoop bs.length bs

/-! ## The `Bytes` binary packing utility (`geodatabr/core/types.py`)

`Bytes` subclasses `io.BytesIO`: a byte buffer with a single seek
position shared by reads and writes. Writing overwrites in place from
the current position (zero-filling any gap past the end) and advances
it; reading returns up to the requested count and advances it. -/

/-- The state of a `Bytes` buffer: contents and current position. -/
structure Bytes where
  data : List Nat
  pos : Nat
  deriving Repr, DecidableEq

/-- A fresh empty buffer, `Bytes()`. -/
def Bytes.empty : Bytes := ⟨[], 0⟩

/-- `io.BytesIO.write`: overwrite from the current position, zero-filling
any gap between the end of the data and the position. -/
def Bytes.write (st : Bytes) (bs : List Nat) : Bytes :=
  { data := st.data.take st.pos ++ List.replicate (st.pos - st.data.length) 0 ++
      bs ++ st.data.drop (st.pos + bs.length),
    pos := st.pos + bs.length }

/-- `io.BytesIO.read(n)`: up to `n` bytes from the current position. -/
def Bytes.read (st : Bytes) (n : Nat) : List Nat × Bytes :=
  let out := (st.data.drop st.pos).take n
  (out, { st with pos := st.pos + out.length })

/-- `struct.pack('c', arg)`: the argument must be a bytes object of
length 1. -/
def packChar (arg : List Nat) : Except PyErr (List Nat) :=
  if arg.length = 1 then .ok arg else .error .structError

/-- `struct.pack('!i', n)`: big-endian 4-byte signed integer; out-of-range
integers raise `struct.error`. -/
def packIntBE (n : Int) : Except PyErr (List Nat) :=
  if -(2 ^ 31) ≤ n ∧ n < 2 ^ 31 then .ok (be4 (toTwos 32 n))
  else .error .structError

/-- `struct.pack('i', n)`: native-order (little-endian on the supported
platforms) 4-byte signed integer. -/
def packIntNative (n : Int) : Except PyErr (List Nat) :=
  if -(2 ^ 31) ≤ n ∧ n < 2 ^ 31 then .ok (le4 (toTwos 32 n))
  else .error .structError

/-- Bit length by structural recursion on a fuel argument (`fuel ≥ n`
suffices, since `n / 2 < n` for `n > 0`). -/
def bitLenAux : Nat → Nat → Nat
  | 0, _ => 0
  | fuel + 1, n => if n = 0 then 0 else bitLenAux fuel (n / 2) + 1

/-- The bit length of `n`: `0` for `0`, otherwise `⌊log₂ n⌋ + 1`. -/
def bitLen (n : Nat) : Nat := bitLenAux n n

/-- Shift `a` right by `d` bits, rounding to nearest, ties to even. -/
def rshiftRNE (a d : Nat) : Nat :=
  if d = 0 then a
  else
    let q := a / 2 ^ d
    let r := a % 2 ^ d
    let half := 2 ^ (d - 1)
    q + (if half < r ∨ (r = half ∧ q % 2 = 1) then 1 else 0)

/-- Multiply `a` by `2^(-d)`, rounding to nearest, ties to even, when
`d > 0`; an exact left shift otherwise. -/
def roundShift (a : Nat) (d : Int) : Nat :=
  if d ≤ 0 then a * 2 ^ (-d).toNat else rshiftRNE a d.toNat

/-- `struct.pack('!f', x)` for the float `x = m * 2^e`: the big-endian
IEEE-754 binary32 encoding, rounding to nearest even; values that round
beyond the largest finite float32 raise `OverflowError`. -/
def packFloatBE (m e : Int) : Except PyErr (List Nat) :=
  if m = 0 then .ok [0, 0, 0, 0]
  else
    let s : Nat := if m < 0 then 1 else 0
    let a : Nat := m.natAbs
    let L : Int := (bitLen a : Int)
    let E : Int := e + L - 1
    if E < -126 then
      -- subnormal range: significand on the 2^-149 grid; a carry into
      -- 2^23 lands exactly on the smallest normal encoding
      .ok (be4 (s * 2 ^ 31 + roundShift a (-(e + 149))))
    else
      let sig0 := roundShift a (L - 24)
      let sig : Nat := if sig0 = 2 ^ 24 then 2 ^ 23 else sig0
      let E' : Int := if sig0 = 2 ^ 24 then E + 1 else E
      if 127 < E' then .error .overflowError
      else .ok (be4 (s * 2 ^ 31 + (E' + 127).toNat * 2 ^ 23 + (sig - 2 ^ 23)))

/-- The argument of a `'{n}s'` pack format: Python 3 distinguishes
`bytes` from `str`, and `struct` only accepts `bytes` there. -/
inductive StrArg where
  | bytes (b : List Nat) : StrArg
  | str (s : List Char) : StrArg

/-- `struct.pack('{n}s', arg)`: the argument must be a bytes object
(a `str` raises `struct.error`); bytes are zero-padded or truncated to
`n`. -/
def packS (n : Nat) : StrArg → Except PyErr (List Nat)
  | .bytes b => .ok ((b.take n) ++ List.replicate (n - b.length) 0)
  | .str _ => .error .structError

/-- `Bytes.writeByte(value)`: packs `chr(value).encode('utf-8')` with the
`'c'` format, which requires a single byte. -/
def Bytes.writeByte (st : Bytes) (value : Int) : Except PyErr Bytes := do
  -- chr(value)
  if 0 ≤ value ∧ value < 0x110000 then
    let c := value.toNat
    -- .encode('utf-8'): surrogates are not encodable
    if 0xD800 ≤ c ∧ c < 0xE000 then .error .unicodeEncodeError
    else do
      let packed ← packChar (utf8EncodeScalar c)
      .ok (st.write packed)
  else .error .valueError

/-- `Bytes.writeBoolean(value)`: writes byte 1 or 0. -/
def Bytes.writeBoolean (st : Bytes) (value : Bool) : Except PyErr Bytes :=
  st.writeByte (if value then 1 else 0)

/-- `Bytes.writeInt(value)`: packs with `'!i'`. -/
def Bytes.writeInt (st : Bytes) (value : Int) : Except PyErr Bytes := do
  let packed ← packIntBE value
  .ok (st.write packed)

/-- `Bytes.writeFloat(value)` for `value = m * 2^e`: packs with `'!f'`. -/
def Bytes.writeFloat (st : Bytes) (m e : Int) : Except PyErr Bytes := do
  let packed ← packFloatBE m e
  .ok (st.write packed)

/-- `Bytes.writeString(value)`: packs the length with `'i'` and then the
string itself with `'{length}s'`. In Python 3 the second pack requires a
bytes object, so passing the `str` raises `struct.error` after the
4-byte length header has already been written. -/
def Bytes.writeString (st : Bytes) (value : List Char) : Except PyErr Bytes := do
  let hdr ← packIntNative value.length
  let st := st.write hdr
  let packed ← packS value.length (.str value)
  .ok (st.write packed)

/-- `Bytes.readByte()`: unpacks one byte with `'c'` and takes its `ord`;
a short read raises `struct.error`. -/
def Bytes.readByte (st : Bytes) : Except PyErr (Nat × Bytes) :=
  let (out, st') := st.read 1
  match out with
  | [b] => .ok (b, st')
  | _ => .error .structError

/-- `Bytes.readBoolean()`: reads a byte and compares it with 1. -/
def Bytes.readBoolean (st : Bytes) : Except PyErr (Bool × Bytes) := do
  let (b, st') ← st.readByte
  .ok (b = 1, st')

/-- `Bytes.readInt()`: unpacks 4 bytes with `'!i'`. -/
def Bytes.readInt (st : Bytes) : Except PyErr (Int × Bytes) :=
  let (out, st') := st.read 4
  match out with
  | [b0, b1, b2, b3] =>
    let m : Nat := b0 * 2 ^ 24 + b1 * 2 ^ 16 + b2 * 2 ^ 8 + b3
    .ok (if m < 2 ^ 31 then (m : Int) else (m : Int) - 2 ^ 32, st')
  | _ => .error .structError

/-- `Bytes.readString()`: unpacks a native-order 4-byte length, then that
many bytes with `'{n}s'` — which in Python 3 yields a `bytes` value, not
a `str`. A short read raises `struct.error`. -/
def Bytes.readString (st : Bytes) : Except PyErr (List Nat × Bytes) :=
  let (out, st') := st.read 4
  match out with
  | [b0, b1, b2, b3] =>
    let m : Nat := b3 * 2 ^ 24 + b2 * 2 ^ 16 + b1 * 2 ^ 8 + b0
    let n : Nat := if m < 2 ^ 31 then m else 0   -- negative lengths read 0 bytes
    let (payload, st'') := st'.read n
    if payload.length = n then .ok (payload, st'') else .error .structError
  | _ => .error .structError

/-! ## Territorial entities and data tree (`dtb/core/entities.py`)

`entities.py` is Python 2 code: its row values are 2.x `int`s,
byte-strings (`str`) or `unicode` strings. `unicode(s)` on a byte-string
decodes it as ASCII, and `str(u)` on a unicode string encodes it as
ASCII; both raise on non-ASCII input. -/

/-- A Python 2 row value: an integer, a byte-string or a unicode string. -/
inductive PyVal2 where
  | int (n : Int) : PyVal2
  | str (b : List Nat) : PyVal2
  | uni (s : List Char) : PyVal2
  deriving Repr, DecidableEq

/-- `unicode(v)` applied by `toDict` when `forceUnicode` is set and the
value is a byte-string: strict ASCII decoding. -/
def pyUnicode (b : List Nat) : Except PyErr PyVal2 :=
  if b.all (· < 128) then .ok (.uni (b.map (Char.ofNat ·))) else .error .unicodeDecodeError

/-- The value `toDict` stores for one column: `unicode(row[column])` when
`forceUnicode` is set and the value is a byte-string, the value itself
otherwise. -/
def coerceVal (forceUnicode : Bool) (v : PyVal2) : Except PyErr PyVal2 :=
  if forceUnicode then
    match v with
    | .str b => pyUnicode b
    | v => .ok v
  else .ok v

/-- Python 2 `str(v)`: integers print in decimal, byte-strings pass
through, unicode strings are encoded as strict ASCII. -/
def pyStr2 (v : PyVal2) : Except PyErr PyVal2 :=
  match v with
  | .int n => .ok (.str ((toString n).toList.map Char.toNat))
  | .str b => .ok (.str b)
  | .uni s =>
    if s.all (·.toNat < 128) then .ok (.str (s.map Char.toNat))
    else .error .unicodeEncodeError

/-- An entity class: its table name and ordered column names, as declared
by the SQLAlchemy models. -/
structure Entity where
  table : String
  columns : List String
  deriving Repr, DecidableEq

/-- The `Uf` entity (states). -/
def Uf : Entity := ⟨"uf", ["id", "nome"]⟩

/-- The `Mesorregiao` entity (mesoregions). -/
def Mesorregiao : Entity := ⟨"mesorregiao", ["id", "id_uf", "nome"]⟩

/-- The `Microrregiao` entity (microregions). -/
def Microrregiao : Entity := ⟨"microrregiao", ["id", "id_mesorregiao", "id_uf", "nome"]⟩

/-- The `Municipio` entity (cities). -/
def Municipio : Entity :=
  ⟨"municipio", ["id", "id_microrregiao", "id_mesorregiao", "id_uf", "nome"]⟩

/-- The `Distrito` entity (districts). -/
def Distrito : Entity :=
  ⟨"distrito", ["id", "id_municipio", "id_microrregiao", "id_mesorregiao", "id_uf", "nome"]⟩

/-- The `Subdistrito` entity (subdistricts). -/
def Subdistrito : Entity :=
  ⟨"subdistrito",
   ["id", "id_distrito", "id_municipio", "id_microrregiao", "id_mesorregiao", "id_uf", "nome"]⟩

/-- A row as stored in `TerritorialData._dict`: an ordered field map. -/
abbrev Row := List (String × PyVal2)

/-- The `TerritorialData` state: the fields set by its constructor. -/
structure TerritorialData where
  name : String
  cols : List String
  rows : List Row
  tdict : List (String × List Row)
  rawdata : Option (List Nat)
  deriving Repr

/-- `TerritorialData.entities`: the six entity classes in dependency
order. -/
def TerritorialData.entities : List Entity :=
  [Uf, Mesorregiao, Microrregiao, Municipio, Distrito, Subdistrito]

/-- `TerritorialData.__init__`: empty collections, no raw data. -/
def TerritorialData.init (baseYear : String) : TerritorialData :=
  { name := "dtb_" ++ baseYear, cols := [], rows := [], tdict := [], rawdata := none }

/-- `TerritorialData.load`: stores the raw source bytes, nothing else. -/
def TerritorialData.load (td : TerritorialData) (raw : List Nat) : TerritorialData :=
  { td with rawdata := some raw }

/-- One step of the column loop of `toDict`: stores the (possibly
unicode-coerced) value of one column into `row_data`; a missing column
raises `KeyError`. -/
def colStep (forceUnicode : Bool) (row : Row) (acc : Row) (column : String) :
    Except PyErr Row :=
  match alookup row column with
  | none => .error (.keyError column)
  | some v => do
    let v' ← coerceVal forceUnicode v
    .ok (aset acc column v')

/-- The inner column loop of `toDict`: builds `row_data` by storing, for
each column in declaration order, the (possibly unicode-coerced) value. -/
def rowToData (forceUnicode : Bool) (cols : List String) (row : Row) :
    Except PyErr Row :=
  cols.foldlM (colStep forceUnicode row) []

/-- One iteration of the row loop of `toDict`: builds `row_data`, computes
`row_id` (stringified when `strKeys`), and deletes the `'id'` field
unless `includeKey`. -/
def rowEntry (strKeys forceUnicode includeKey : Bool) (cols : List String) (row : Row) :
    Except PyErr (PyVal2 × Row) := do
  let rowData ← rowToData forceUnicode cols row
  let idVal ← match alookup rowData "id" with
    | none => Except.error (PyErr.keyError "id")
    | some v => Except.ok v
  let rowId ← if strKeys then pyStr2 idVal else .ok idVal
  let rowData' ← if includeKey then .ok rowData else adel rowData "id" "id"
  .ok (rowId, rowData')

/-- One step of the row loop of `toDict`: computes the row entry and
stores it in the table mapping under `row_id`. -/
def tableStep (strKeys forceUnicode includeKey : Bool) (cols : List String)
    (tm : List (PyVal2 × Row)) (row : Row) : Except PyErr (List (PyVal2 × Row)) := do
  let (rowId, rowData) ← rowEntry strKeys forceUnicode includeKey cols row
  .ok (aset tm rowId rowData)

/-- The row loop of `toDict` over one table, starting from the fresh
`OrderedDict()`. -/
def toDictTable (strKeys forceUnicode includeKey : Bool) (cols : List String)
    (rows : List Row) : Except PyErr (List (PyVal2 × Row)) :=
  rows.foldlM (tableStep strKeys forceUnicode includeKey cols) []

/-- One step of the entity loop of `toDict`: looks the entity's table up
in `self._dict` (raising `KeyError` when absent), silently skips it when
empty, otherwise emits its rows. -/
def toDictStep (tdict : List (String × List Row))
    (strKeys forceUnicode includeKey : Bool)
    (acc : List (String × List (PyVal2 × Row))) (ent : Entity) :
    Except PyErr (List (String × List (PyVal2 × Row))) :=
  match alookup tdict ent.table with
  | none => .error (.keyError ent.table)
  | some rows =>
    if rows = [] then .ok acc
    else do
      let tableMap ← toDictTable strKeys forceUnicode includeKey ent.columns rows
      .ok (aset acc ent.table tableMap)

/-- `TerritorialData.toDict(strKeys, forceUnicode, includeKey)`: the
entity loop over the six entities in dependency order. -/
def TerritorialData.toDict (td : TerritorialData)
    (strKeys forceUnicode includeKey : Bool) :
    Except PyErr (List (String × List (PyVal2 × Row))) :=
  TerritorialData.entities.foldlM
    (toDictStep td.tdict strKeys forceUnicode includeKey) []

/-! ## `TerritorialBase.export` (`dtb/core/entities.py`)

The exporter registry `exporters.FORMATS` and the individual exporter
classes live outside the given sources; `export` only looks an exporter
up by format name, asks it for its serialized data, and routes the
output. The registry and the exporters are therefore parameters of the
embedding. -/

/-- The data produced by an exporter: a byte-string or unicode text. -/
inductive PyData where
  | bytes (b : List Nat) : PyData
  | uni (s : List Char) : PyData
  deriving Repr, DecidableEq

/-- An exporter plugin as `export` consumes it: its human-readable format
name, file extension, binary flag, and the `exporter(data, minified).data`
computation. -/
structure ExporterPlugin where
  formatName : String
  extension : String
  binaryFormat : Bool
  run : TerritorialData → Bool → PyData

/-- An observable side effect of `export`: a log line, a file write, or a
write to standard output. -/
inductive Effect where
  | log (msg : String) : Effect
  | fileWrite (filename : String) (data : PyData) : Effect
  | stdoutWrite (data : PyData) : Effect
  deriving Repr, DecidableEq

/-- Where an `Effect` sends output, ignoring log lines. -/
inductive Target where
  | file (filename : String) : Target
  | stdout : Target
  deriving Repr, DecidableEq

/-- The output destinations of a list of effects, in order. -/
def writeTargets (effs : List Effect) : List Target :=
  effs.filterMap
    (fun e => match e with
      | .fileWrite f _ => some (.file f)
      | .stdoutWrite _ => some .stdout
      | .log _ => none)

/-- The log line `export` emits before exporting. -/
def exportLogMsg (minified : Bool) (formatName : String) : String :=
  if minified then
    "Exporting database to minified " ++ formatName ++ " format..."
  else "Exporting database to " ++ formatName ++ " format..."

/-- The data coercion in `export`: non-binary byte data is decoded to
unicode text (`unicode(data.decode('utf-8'))`). -/
def decodeData (binaryFormat : Bool) (data : PyData) : Except PyErr PyData :=
  if binaryFormat then .ok data
  else
    match data with
    | .uni s => .ok (.uni s)
    | .bytes b =>
      match utf8Decode b with
      | some s => .ok (.uni s)
      | none => .error .unicodeDecodeError

/-- The output routing of `export`: an explicitly given (truthy) filename
is written to, `'auto'` derives `'dtb' + extension`, and a missing (or
empty, hence falsy) filename sends the data to standard output. -/
def exportWrite (extension : String) (data' : PyData) (filename : Option String) : Effect :=
  match filename with
  | some f =>
    if f = "" then Effect.stdoutWrite data'
    else if f = "auto" then Effect.fileWrite ("dtb" ++ extension) data'
    else Effect.fileWrite f data'
  | none => Effect.stdoutWrite data'

/-- `TerritorialBase.export(format, minified, filename)`: raises
`Exception('Unsupported output format.')` before any other action when
the format is not registered; otherwise logs, obtains the exporter's
data, decodes byte data to text for non-binary formats, and routes the
output. Returns the effects performed together with the outcome. -/
def TerritorialBase.export (FORMATS : List (String × ExporterPlugin))
    (d : TerritorialData) (format : String) (minified : Bool)
    (filename : Option String) : List Effect × Except PyErr Unit :=
  match alookup FORMATS format with
  | none => ([], .error (.exception "Unsupported output format."))
  | some exporter =>
    match decodeData exporter.binaryFormat (exporter.run d minified) with
    | .error e => ([.log (exportLogMsg minified exporter.formatName)], .error e)
    | .ok data' =>
      ([.log (exportLogMsg minified exporter.formatName), .log "Done.",
        exportWrite exporter.extension data' filename], .ok ())

/-! ## Serialized datasets

Both remaining encoders consume the serializer's normalized structure:
an ordered mapping table name → (row key → ordered field map). Row keys
and field values are scalars — integers or text. -/

/-- A scalar value in a serialized dataset: an integer or a string. -/
inductive Scalar where
  | int (n : Int) : Scalar
  | str (s : List Char) : Scalar
  deriving Repr, DecidableEq

/-- Python 3 `str(v)` on a scalar: integers in decimal, strings as is. -/
def pyStr3 : Scalar → List Char
  | .int n => (toString n).toList
  | .str s => s

/-- A normalized dataset: table name → list of (row key, field map). -/
abbrev Dataset := List (List Char × List (Scalar × List (List Char × Scalar)))

/-- Modelled from the spec: the dataset `Serializer` (its module,
`geodatabr.dataset.serializers`, is not among the given sources). Per
§4.2–4.3 of the spec it wraps the data tree's `toDict`, omitting tables
with zero rows from the result, and — with the `forceStr` option the
encoders request — coerces the field values to their canonical text
representation, keeping fields and rows in order. -/
def serialize (tree : Dataset) : List (List Char × List (Scalar × List (List Char × List Char))) :=
  tree.filterMap
    (fun p =>
      if p.2.isEmpty then none
      else some (p.1, p.2.map (fun kr => (kr.1, kr.2.map (fun cv => (cv.1, pyStr3 cv.2))))))

/-! ## The XML encoder (`lib/geodatabr/encoders/xml.py`) -/

/-- An XML tree node as built through `lxml.etree`: an element with a
tag, attributes, optional text and children, or a comment. -/
inductive XNode where
  | element (tag : String) (attrs : List (String × List Char))
      (text : Option (List Char)) (children : List XNode) : XNode
  | comment (text : List Char) : XNode

/-- One `field` element: the column name as the `name` attribute, the
(already stringified) value as element text. -/
def fieldXml (c v : List Char) : XNode := .element "field" [("name", c)] (some v) []

/-- One `row` element: a `field` child per column. -/
def rowXml (row : List (List Char × List Char)) : XNode :=
  .element "row" [] none (row.map (fun cv => fieldXml cv.1 cv.2))

/-- One `table` element, named by the table name, with a `row` child per
record (the rows mapping is iterated by values; keys are not emitted). -/
def tableXml (t : List Char) (rows : List (Scalar × List (List Char × List Char))) : XNode :=
  .element "table" [("name", t)] none (rows.map (fun kr => rowXml kr.2))

/-- `XmlEncoder.encode`: serializes the dataset with
`Serializer(forceStr=True, includeKey=True)` and builds a `database`
root element, named by the translated dataset name, holding one comment
plus one `table` element per serialized table. `tr` is the translation
function `_`. -/
def XmlEncoder.encode (tr : String → List Char) (tree : Dataset) : XNode :=
  .element "database" [("name", tr "dataset_name")] none
    ((serialize tree).flatMap
      (fun p => [.comment (" Table ".toList ++ p.1 ++ " ".toList), tableXml p.1 p.2]))

/-- The children of an element node (a comment has none). -/
def XNode.childrenOf : XNode → List XNode
  | .element _ _ _ children => children
  | .comment _ => []

/-- Whether a node is an element with the given tag. -/
def XNode.isTag (tag : String) : XNode → Bool
  | .element t _ _ _ => t = tag
  | .comment _ => false

/-- The number of elements with the given tag in a list of nodes
(top level only). -/
def countTag (tag : String) (ns : List XNode) : Nat := ns.countP (XNode.isTag tag)

/-- The `name` attributes of the `table` elements in a list of nodes. -/
def tableNames (ns : List XNode) : List (List Char) :=
  ns.filterMap
    (fun n => match n with
      | .element "table" attrs _ _ => alookup attrs "name"
      | _ => none)

/-! ## The MessagePack exporter (`lib/places/exporters/msgpack.py`) -/

set_option maxRecDepth 4096

/-- A MessagePack value: the universe the exporter's data lives in —
integers, text and (ordered) maps. -/
inductive MsgVal where
  | int (n : Int) : MsgVal
  | str (s : List Char) : MsgVal
  | map (kvs : List (MsgVal × MsgVal)) : MsgVal

mutual

/-- `msgpack.packb(v, use_bin_type=False)`: the standard MessagePack
encoding, choosing the smallest integer format, the legacy raw family
for UTF-8 encoded text, and the map family for maps (entries in order).
Out-of-range integers and oversized payloads raise, giving `none`. -/
def encVal : MsgVal → Option (List Nat)
  | .int n =>
    if 0 ≤ n ∧ n < 0x80 then some [n.toNat]
    else if -0x20 ≤ n ∧ n < 0 then some [(n + 0x100).toNat]
    else if 0x80 ≤ n ∧ n ≤ 0xFF then some [0xCC, n.toNat]
    else if 0xFF < n ∧ n ≤ 0xFFFF then some (0xCD :: be2 n.toNat)
    else if 0xFFFF < n ∧ n ≤ 0xFFFFFFFF then some (0xCE :: be4 n.toNat)
    else if 0xFFFFFFFF < n ∧ n < 2 ^ 64 then some (0xCF :: be8 n.toNat)
    else if -0x80 ≤ n ∧ n < -0x20 then some [0xD0, (n + 0x100).toNat]
    else if -0x8000 ≤ n ∧ n < -0x80 then some (0xD1 :: be2 (n + 0x10000).toNat)
    else if -0x80000000 ≤ n ∧ n < -0x8000 then some (0xD2 :: be4 (n + 0x100000000).toNat)
    else if -(2 ^ 63) ≤ n ∧ n < -0x80000000 then some (0xD3 :: be8 (n + 2 ^ 64).toNat)
    else none
  | .str s =>
    let bs := utf8Encode s
    let n := bs.length
    if n ≤ 0x1F then some ((0xA0 + n) :: bs)
    else if n ≤ 0xFFFF then some (0xDA :: be2 n ++ bs)
    else if n < 2 ^ 32 then some (0xDB :: be4 n ++ bs)
    else none
  | .map kvs => do
    let payload ← encEntries kvs
    let n := kvs.length
    if n ≤ 0xF then some ((0x80 + n) :: payload)
    else if n ≤ 0xFFFF then some (0xDE :: be2 n ++ payload)
    else if n < 2 ^ 32 then some (0xDF :: be4 n ++ payload)
    else none

/-- Encode the entries of a map, in order, key before value. -/
def encEntries : List (MsgVal × MsgVal) → Option (List Nat)
  | [] => some []
  | (k, v) :: rest => do
    let kb ← encVal k
    let vb ← encVal v
    let rb ← encEntries rest
    some (kb ++ vb ++ rb)

end

/-- Decode a raw (string) payload of `n` bytes: UTF-8 decode it. -/
def decRaw (n : Nat) (bs : List Nat) : Option (MsgVal × List Nat) :=
  let payload := bs.take n
  if payload.length = n then
    match utf8Decode payload with
    | some s => some (.str s, bs.drop n)
    | none => none
  else none

/-- Decode `n` map entries off the front of the byte string with the
given value decoder, threading the unconsumed tail. -/
def decEntriesF (dv : List Nat → Option (MsgVal × List Nat)) :
    Nat → List Nat → Option (List (MsgVal × MsgVal) × List Nat)
  | 0, bs => some ([], bs)
  | n + 1, bs => do
    let (k, bs1) ← dv bs
    let (v, bs2) ← dv bs1
    let (rest, bs3) ← decEntriesF dv n bs2
    some ((k, v) :: rest, bs3)

/-- A standard MessagePack decoder for the formats the packer emits:
parse one value off the front of the byte string, returning it and the
unconsumed tail. The fuel bounds the nesting depth. -/
def decVal : Nat → List Nat → Option (MsgVal × List Nat)
  | 0, _ => none
  | _ + 1, [] => none
  | fuel + 1, b :: bs =>
    if b ≤ 0x7F then some (.int (b : Int), bs)
    else if b ≤ 0x8F then
      (decEntriesF (decVal fuel) (b - 0x80) bs).map (fun p => (.map p.1, p.2))
    else if 0xA0 ≤ b ∧ b ≤ 0xBF then decRaw (b - 0xA0) bs
    else if b = 0xCC then
      match bs with
      | b0 :: r => some (.int (b0 : Int), r)
      | _ => none
    else if b = 0xCD then
      match bs with
      | b0 :: b1 :: r => some (.int ((b0 * 2 ^ 8 + b1 : Nat) : Int), r)
      | _ => none
    else if b = 0xCE then
      match bs with
      | b0 :: b1 :: b2 :: b3 :: r =>
        some (.int ((b0 * 2 ^ 24 + b1 * 2 ^ 16 + b2 * 2 ^ 8 + b3 : Nat) : Int), r)
      | _ => none
    else if b = 0xCF then
      match bs with
      | b0 :: b1 :: b2 :: b3 :: b4 :: b5 :: b6 :: b7 :: r =>
        some (.int ((b0 * 2 ^ 56 + b1 * 2 ^ 48 + b2 * 2 ^ 40 + b3 * 2 ^ 32 +
          b4 * 2 ^ 24 + b5 * 2 ^ 16 + b6 * 2 ^ 8 + b7 : Nat) : Int), r)
      | _ => none
    else if b = 0xD0 then
      match bs with
      | b0 :: r =>
        some (.int (if b0 < 0x80 then (b0 : Int) else (b0 : Int) - 0x100), r)
      | _ => none
    else if b = 0xD1 then
      match bs with
      | b0 :: b1 :: r =>
        let m : Nat := b0 * 2 ^ 8 + b1
        some (.int (if m < 0x8000 then (m : Int) else (m : Int) - 0x10000), r)
      | _ => none
    else if b = 0xD2 then
      match bs with
      | b0 :: b1 :: b2 :: b3 :: r =>
        let m : Nat := b0 * 2 ^ 24 + b1 * 2 ^ 16 + b2 * 2 ^ 8 + b3
        some (.int (if m < 0x80000000 then (m : Int) else (m : Int) - 0x100000000), r)
      | _ => none
    else if b = 0xD3 then
      match bs with
      | b0 :: b1 :: b2 :: b3 :: b4 :: b5 :: b6 :: b7 :: r =>
        let m : Nat := b0 * 2 ^ 56 + b1 * 2 ^ 48 + b2 * 2 ^ 40 + b3 * 2 ^ 32 +
          b4 * 2 ^ 24 + b5 * 2 ^ 16 + b6 * 2 ^ 8 + b7
        some (.int (if m < 2 ^ 63 then (m : Int) else (m : Int) - 2 ^ 64), r)
      | _ => none
    else if b = 0xDA then
      match bs with
      | b0 :: b1 :: r => decRaw (b0 * 2 ^ 8 + b1) r
      | _ => none
    else if b = 0xDB then
      match bs with
      | b0 :: b1 :: b2 :: b3 :: r =>
        decRaw (b0 * 2 ^ 24 + b1 * 2 ^ 16 + b2 * 2 ^ 8 + b3) r
      | _ => none
    else if b = 0xDE then
      match bs with
      | b0 :: b1 :: r =>
        (decEntriesF (decVal fuel) (b0 * 2 ^ 8 + b1) r).map (fun p => (.map p.1, p.2))
      | _ => none
    else if b = 0xDF then
      match bs with
      | b0 :: b1 :: b2 :: b3 :: r =>
        (decEntriesF (decVal fuel) (b0 * 2 ^ 24 + b1 * 2 ^ 16 + b2 * 2 ^ 8 + b3) r).map
          (fun p => (.map p.1, p.2))
      | _ => none
    else if 0xE0 ≤ b then some (.int ((b : Int) - 0x100), bs)
    else none

/-- `msgpack.unpackb(bs)`: decode one value and require the whole input
to be consumed. One unit of fuel per input byte (plus one) bounds any
possible nesting. -/
def unpackb (bs : List Nat) : Option MsgVal :=
  match decVal (bs.length + 1) bs with
  | some (v, []) => some v
  | _ => none

mutual

/-- Nesting depth of a value (a scalar has depth 1). -/
def depthVal : MsgVal → Nat
  | .int _ => 1
  | .str _ => 1
  | .map kvs => 1 + depthEntries kvs

/-- Nesting depth of map entries: the maximum over keys and values. -/
def depthEntries : List (MsgVal × MsgVal) → Nat
  | [] => 0
  | (k, v) :: rest => max (max (depthVal k) (depthVal v)) (depthEntries rest)

end

/-- A scalar as a MessagePack value. -/
def Scalar.toMsgVal : Scalar → MsgVal
  | .int n => .int n
  | .str s => .str s

/-- Modelled from the spec: the `normalize` method of the serialized
dataset (its class is not among the given sources). Per §4.4 of the
spec it collapses the ordered-mapping tree into plain nested containers,
preserving tables, rows and fields with their order and values. -/
def Dataset.normalize (d : Dataset) : MsgVal :=
  .map (d.map
    (fun t => (.str t.1, .map (t.2.map
      (fun kr => (kr.1.toMsgVal, .map (kr.2.map
        (fun cv => (.str cv.1, cv.2.toMsgVal)))))))))

/-- `MessagePackExporter.export`: normalize the dataset, then pack it
with `msgpack.packb(•, use_bin_type=False)`. -/
def MessagePackExporter.export (d : Dataset) : Option (List Nat) :=
  encVal (Dataset.normalize d)


/-! ## Cleanliness predicates and witness fixtures

The universal claims about `toDict` hold for trees whose rows are well
formed: every column of the owning entity is present, and text values
are ASCII (so that the strict-ASCII `unicode`/`str` coercions of the
Python 2 code cannot raise). -/

/-- A value whose text content is plain ASCII: the `unicode()` and
`str()` coercions of `toDict` cannot fail on it. -/
def ValOk : PyVal2 → Prop
  | .int _ => True
  | .str b => ∀ x ∈ b, x < 128
  | .uni s => ∀ c ∈ s, c.toNat < 128

instance : (v : PyVal2) → Decidable (ValOk v)
  | .int _ => .isTrue trivial
  | .str b => inferInstanceAs (Decidable (∀ x ∈ b, x < 128))
  | .uni s => inferInstanceAs (Decidable (∀ c ∈ s, c.toNat < 128))

/-- The column `c` is present in the row with an ASCII-clean value. -/
def ColClean (row : Row) (c : String) : Prop :=
  match alookup row c with
  | none => False
  | some v => ValOk v

instance (row : Row) (c : String) : Decidable (ColClean row c) :=
  match h : alookup row c with
  | none => .isFalse (by unfold ColClean; rw [h]; exact id)
  | some v =>
    if hv : ValOk v then .isTrue (by unfold ColClean; rw [h]; exact hv)
    else .isFalse (by unfold ColClean; rw [h]; exact hv)

/-- The table is present in `_dict` and all its rows are clean for the
given column list. -/
def TableClean (cols : List String) : Option (List Row) → Prop
  | none => False
  | some rows => ∀ row ∈ rows, ∀ c ∈ cols, ColClean row c

instance (cols : List String) : (o : Option (List Row)) → Decidable (TableClean cols o)
  | none => .isFalse id
  | some rows => inferInstanceAs (Decidable (∀ row ∈ rows, ∀ c ∈ cols, ColClean row c))

/-- A loaded territorial data tree: every entity table is present in
`_dict` and all rows are clean for their entity's columns. -/
def CleanTD (td : TerritorialData) : Prop :=
  ∀ e ∈ TerritorialData.entities, TableClean e.columns (alookup td.tdict e.table)

instance (td : TerritorialData) : Decidable (CleanTD td) :=
  inferInstanceAs (Decidable (∀ e ∈ TerritorialData.entities,
    TableClean e.columns (alookup td.tdict e.table)))

/-- The destination `export` routes its output to, as a function of the
filename argument and the exporter's extension. -/
def expectedTarget (extension : String) : Option String → Target
  | none => .stdout
  | some f =>
    if f = "" then .stdout
    else if f = "auto" then .file ("dtb" ++ extension)
    else .file f

/-- A small loaded tree: one state row, all other tables empty. -/
def tdExample : TerritorialData :=
  { TerritorialData.init "2014" with
    tdict := [("uf", [[("id", PyVal2.int 11), ("nome", PyVal2.str [82, 79])]]),
              ("mesorregiao", []), ("microrregiao", []), ("municipio", []),
              ("distrito", []), ("subdistrito", [])] }

/-- A toy exporter plugin for the export-routing witnesses. -/
def expExample : ExporterPlugin :=
  { formatName := "XML", extension := ".xml", binaryFormat := false,
    run := fun _ _ => PyData.uni ['<', '>'] }


/-- A dataset holding one state row and five empty tables. -/
def ufOnlyTree (k : Scalar) (r : List (List Char × Scalar)) : Dataset :=
  [("uf".toList, [(k, r)]), ("mesorregiao".toList, []), ("microrregiao".toList, []),
   ("municipio".toList, []), ("distrito".toList, []), ("subdistrito".toList, [])]

/-- A one-table, one-row dataset for the encoder witnesses. -/
def dsExample : Dataset :=
  [("uf".toList,
    [(Scalar.int 11, [("id".toList, Scalar.int 11), ("nome".toList, Scalar.str "RO".toList)])])]

/-! # Theorems -/

/-! ## The `Bytes` packing utility: claims C2, C7, C9 -/

/-- `chr(v).encode('utf-8')` is the single byte `v` exactly when
`v ≤ 127`. -/
theorem utf8EncodeScalar_small {v : Nat} (h : v ≤ 127) :
    utf8EncodeScalar v = [v] := by
  unfold utf8EncodeScalar
  rw [if_pos (by omega)]

/-- For `128 ≤ v ≤ 255`, `chr(v).encode('utf-8')` is two bytes long. -/
theorem utf8EncodeScalar_two {v : Nat} (h1 : 128 ≤ v) (h2 : v ≤ 255) :
    (utf8EncodeScalar v).length = 2 := by
  unfold utf8EncodeScalar
  rw [if_neg (by omega), if_pos (by omega)]
  rfl

/-- `writeByte` on a fresh buffer, for `v ≤ 127`: success, one byte. -/
theorem writeByte_small {v : Nat} (h : v ≤ 127) :
    Bytes.empty.writeByte v = .ok ⟨[v], 1⟩ := by
  unfold Bytes.writeByte
  rw [if_pos ⟨by omega, by omega⟩, if_neg (by omega)]
  show (packChar (utf8EncodeScalar ((v : Int)).toNat)).bind _ = _
  rw [Int.toNat_natCast, utf8EncodeScalar_small h]
  rfl

/-- C9 — `Bytes.writeByte` succeeds exactly on byte values `0..127`:
for `v ≤ 127` it appends the single byte `v`, and reading a byte back
from the written position returns `v`; for `128 ≤ v ≤ 255` the UTF-8
encoding of `chr(v)` is two bytes, which the single-byte `'c'` pack
format rejects with `struct.error`. -/
theorem claim_c9_writeByte_range (v : Nat) :
    (v ≤ 127 →
      Bytes.empty.writeByte v = .ok ⟨[v], 1⟩ ∧
      Bytes.readByte ⟨[v], 0⟩ = .ok (v, ⟨[v], 1⟩)) ∧
    (128 ≤ v → v ≤ 255 →
      Bytes.empty.writeByte v = .error .structError) := by
  constructor
  · intro h
    refine ⟨writeByte_small h, ?_⟩
    rfl
  · intro h1 h2
    unfold Bytes.writeByte
    rw [if_pos ⟨by omega, by omega⟩, if_neg (by omega)]
    show (packChar (utf8EncodeScalar ((v : Int)).toNat)).bind _ = _
    rw [Int.toNat_natCast]
    unfold packChar
    rw [if_neg (by rw [utf8EncodeScalar_two h1 h2]; omega)]
    rfl

/-- Witness for C9 at `v = 65` and `v = 200`. -/
theorem claim_c9_witness :
    (Bytes.empty.writeByte 65 = .ok ⟨[65], 1⟩ ∧
      Bytes.readByte ⟨[65], 0⟩ = .ok (65, ⟨[65], 1⟩)) ∧
    Bytes.empty.writeByte 200 = .error .structError :=
  ⟨(claim_c9_writeByte_range 65).1 (by omega),
   (claim_c9_writeByte_range 200).2 (by omega) (by omega)⟩

/-- C2 — the spec's round-trip sequence `writeBoolean(True)`,
`writeInt(-42)`, `writeFloat(3.5)`, `writeString("sp")` does not complete
on the Python 3 code: the first three writes succeed (producing the 9
bytes shown), but `writeString` passes its `str` argument to the
`struct` `'s'` format, which requires a `bytes` object, so the sequence
raises `struct.error` before anything can be read back. (The float 3.5
is the dyadic `7 * 2^-1`.) -/
theorem claim_c2_roundtrip_fails :
    (do
      let st ← Bytes.writeBoolean Bytes.empty true
      let st ← Bytes.writeInt st (-42)
      let st ← Bytes.writeFloat st 7 (-1)
      Bytes.writeString st ['s', 'p']) = Except.error PyErr.structError ∧
    (do
      let st ← Bytes.writeBoolean Bytes.empty true
      let st ← Bytes.writeInt st (-42)
      Bytes.writeFloat st 7 (-1)) =
      Except.ok (⟨[1, 255, 255, 255, 214, 64, 96, 0, 0], 9⟩ : Bytes) := by
  constructor <;> rfl

/-- C7 — the wire formats of the write methods, evaluated on the code:
`writeInt(-42)` appends exactly the big-endian two's-complement bytes
`FF FF FF D6` and `writeFloat(3.5)` exactly the big-endian IEEE-754
bytes `40 60 00 00`; but `writeString("sp")` does not append a length
header followed by the raw bytes — in Python 3 the `'{n}s'` pack format
rejects the `str` argument, so it raises `struct.error`. -/
theorem claim_c7_writeString_no_layout :
    Bytes.writeInt Bytes.empty (-42) = .ok ⟨[0xFF, 0xFF, 0xFF, 0xD6], 4⟩ ∧
    Bytes.writeFloat Bytes.empty 7 (-1) = .ok ⟨[0x40, 0x60, 0x00, 0x00], 4⟩ ∧
    Bytes.writeString Bytes.empty ['s', 'p'] = .error .structError := by
  refine ⟨rfl, rfl, rfl⟩

/-! ## `TerritorialData.toDict`: claims C1, C4, C10 -/

/-- C10 — `toDict` requires `self._dict` to hold an entry per entity
table: on a freshly constructed `TerritorialData`, or after only
`load(rawdata)` (which stores the raw bytes and populates no tables),
the lookup of the first entity table raises `KeyError('uf')` instead of
returning an empty mapping. -/
theorem claim_c10_toDict_fresh (year : String) (raw : List Nat)
    (sk fu ik : Bool) :
    (TerritorialData.init year).toDict sk fu ik =
      .error (.keyError "uf") ∧
    ((TerritorialData.init year).load raw).toDict sk fu ik =
      .error (.keyError "uf") := by
  constructor <;> rfl

/-! ## `toDict` and the `includeKey` flag: claim C1 -/

/-- Bind on `Except` after a success. -/
theorem exbind_ok {α β : Type} (a : α) (f : α → Except PyErr β) :
    (Except.ok a >>= f) = f a := rfl

/-- Bind on `Except` after an error. -/
theorem exbind_err {α β : Type} (e : PyErr) (f : α → Except PyErr β) :
    ((Except.error e : Except PyErr α) >>= f) = .error e := rfl

/-- Map on `Except` over a success. -/
theorem exmap_ok {α β : Type} (a : α) (f : α → β) :
    Except.map f (Except.ok a : Except PyErr α) = .ok (f a) := rfl

/-- Map on `Except` over an error. -/
theorem exmap_err {α β : Type} (e : PyErr) (f : α → β) :
    Except.map f (Except.error e : Except PyErr α) = .error e := rfl

/-- Looking up the key just set. -/
theorem alookup_aset_self {α β : Type} [DecidableEq α] (m : List (α × β)) (k : α) (v : β) :
    alookup (aset m k v) k = some v := by
  induction m with
  | nil => simp [aset, alookup]
  | cons p rest ih =>
    obtain ⟨k', v'⟩ := p
    by_cases h : k' = k <;> simp [aset, alookup, h, ih]

/-- Looking up another key after a set. -/
theorem alookup_aset_ne {α β : Type} [DecidableEq α] (m : List (α × β)) (k k' : α) (v : β)
    (h : k ≠ k') : alookup (aset m k v) k' = alookup m k' := by
  induction m with
  | nil => simp [aset, alookup, h]
  | cons p rest ih =>
    obtain ⟨k'', v''⟩ := p
    by_cases h2 : k'' = k
    · subst h2; simp [aset, alookup, h]
    · simp [aset, alookup, h2, ih]

/-- `aset` commutes with mapping a function over the values. -/
theorem aset_mapVals {α β γ : Type} [DecidableEq α] (f : β → γ) (m : List (α × β))
    (k : α) (v : β) : aset (mapVals f m) k (f v) = mapVals f (aset m k v) := by
  induction m with
  | nil => rfl
  | cons p rest ih =>
    obtain ⟨k', v'⟩ := p
    by_cases h : k' = k
    · simp [aset, mapVals, h]
    · simp [aset, mapVals, h]
      exact ih

/-- A member of `aset m k v` carries the new value or was in `m`. -/
theorem mem_aset {α β : Type} [DecidableEq α] (p : α × β) (m : List (α × β)) (k : α) (v : β)
    (hp : p ∈ aset m k v) : p.2 = v ∨ p ∈ m := by
  induction m with
  | nil => simp [aset] at hp; simp [hp]
  | cons q rest ih =>
    obtain ⟨k', v'⟩ := q
    by_cases h : k' = k
    · subst h
      simp [aset] at hp
      rcases hp with h1 | h1
      · left; simp [h1]
      · right; simp [h1]
    · simp [aset, h] at hp
      rcases hp with h1 | h1
      · right; simp [h1]
      · rcases ih h1 with h2 | h2
        · left; exact h2
        · right; simp [h2]

/-- Removing the `'id'` binding from a row's field map, keeping every
other field in order. -/
def eraseId (rd : Row) : Row := rd.filter (fun p => p.1 ≠ "id")

/-- One row of `toDict` with `includeKey=False` equals the same row with
`includeKey=True` with exactly the `'id'` binding removed (the two runs
also fail identically, since the `del` can only fire after `row_id` was
successfully looked up). -/
theorem rowEntry_false (sk fu : Bool) (cols : List String) (row : Row) :
    rowEntry sk fu false cols row =
      (rowEntry sk fu true cols row).map (fun p => (p.1, eraseId p.2)) := by
  unfold rowEntry
  cases h1 : rowToData fu cols row with
  | error e => simp [exbind_err, exmap_err]
  | ok rd =>
    simp only [exbind_ok]
    cases h2 : alookup rd "id" with
    | none => simp [exbind_err, exmap_err]
    | some v =>
      simp only [exbind_ok]
      cases sk with
      | false =>
        simp only [if_neg, if_pos, Bool.false_eq_true, exbind_ok, adel, h2, eraseId]
        rfl
      | true =>
        cases h3 : pyStr2 v with
        | error e => simp [exbind_err, exmap_err]
        | ok rid =>
          simp only [exbind_ok, adel, h2, eraseId]
          rfl

/-- The row loop with `includeKey=False`, started from the value-mapped
accumulator, equals the `includeKey=True` loop with `'id'` erased from
every row value (and fails identically). -/
theorem foldTable_false (sk fu : Bool) (cols : List String) :
    ∀ (rows : List Row) (tm : List (PyVal2 × Row)),
      rows.foldlM (tableStep sk fu false cols) (mapVals eraseId tm) =
        (rows.foldlM (tableStep sk fu true cols) tm).map (mapVals eraseId) := by
  intro rows
  induction rows with
  | nil => intro tm; rfl
  | cons row rest ih =>
    intro tm
    simp only [List.foldlM_cons]
    show (tableStep sk fu false cols (mapVals eraseId tm) row) >>= _ = _
    unfold tableStep
    rw [rowEntry_false]
    cases h : rowEntry sk fu true cols row with
    | error e => simp [exmap_err, exbind_err]
    | ok p =>
      obtain ⟨ri, rd⟩ := p
      simp only [exmap_ok, exbind_ok]
      rw [aset_mapVals eraseId tm ri rd]
      exact ih (aset tm ri rd)

/-- The entity loop with `includeKey=False`, started from the
value-mapped accumulator, equals the `includeKey=True` loop with `'id'`
erased from every row value of every table (and fails identically). -/
theorem toDictFold_false (sk fu : Bool) (tdict : List (String × List Row)) :
    ∀ (ents : List Entity) (acc : List (String × List (PyVal2 × Row))),
      ents.foldlM (toDictStep tdict sk fu false) (mapVals (mapVals eraseId) acc) =
        (ents.foldlM (toDictStep tdict sk fu true) acc).map (mapVals (mapVals eraseId)) := by
  intro ents
  induction ents with
  | nil => intro acc; rfl
  | cons ent rest ih =>
    intro acc
    simp only [List.foldlM_cons]
    show (toDictStep tdict sk fu false (mapVals (mapVals eraseId) acc) ent) >>= _ = _
    unfold toDictStep
    cases h : alookup tdict ent.table with
    | none => simp [exbind_err, exmap_err]
    | some rows =>
      by_cases he : rows = []
      · simp only [if_pos he, exbind_ok]
        exact ih acc
      · simp only [if_neg he]
        show ((toDictTable sk fu false ent.columns rows) >>= _) >>= _ = _
        unfold toDictTable
        rw [show @List.foldlM (Except PyErr) _ _ _ (tableStep sk fu false ent.columns) [] rows =
            @List.foldlM (Except PyErr) _ _ _ (tableStep sk fu false ent.columns)
              (mapVals eraseId []) rows from rfl,
          foldTable_false sk fu ent.columns rows []]
        cases h2 : rows.foldlM (tableStep sk fu true ent.columns) [] with
        | error e => simp [exmap_err, exbind_err]
        | ok tm =>
          simp only [exmap_ok, exbind_ok]
          rw [aset_mapVals (mapVals eraseId) acc ent.table tm]
          exact ih (aset acc ent.table tm)

/-- Reduction of one entity step when the table is missing. -/
theorem toDictStep_none (tdict : List (String × List Row)) (sk fu ik : Bool)
    (acc : List (String × List (PyVal2 × Row))) (ent : Entity)
    (h : alookup tdict ent.table = none) :
    toDictStep tdict sk fu ik acc ent = .error (.keyError ent.table) := by
  unfold toDictStep
  rw [h]

/-- Reduction of one entity step when the table is present. -/
theorem toDictStep_some (tdict : List (String × List Row)) (sk fu ik : Bool)
    (acc : List (String × List (PyVal2 × Row))) (ent : Entity) (rows : List Row)
    (h : alookup tdict ent.table = some rows) :
    toDictStep tdict sk fu ik acc ent =
      if rows = [] then .ok acc
      else (toDictTable sk fu ik ent.columns rows) >>=
        fun tm => .ok (aset acc ent.table tm) := by
  unfold toDictStep
  rw [h]

/-- A successful `includeKey=True` row entry has its `'id'` field in the
emitted field map. -/
theorem rowEntry_true_id (sk fu : Bool) (cols : List String) (row : Row)
    (ri : PyVal2) (rd : Row) (h : rowEntry sk fu true cols row = .ok (ri, rd)) :
    ∃ v, alookup rd "id" = some v := by
  unfold rowEntry at h
  cases h1 : rowToData fu cols row with
  | error e => rw [h1] at h; exact absurd h (by simp [exbind_err])
  | ok rd0 =>
    rw [h1] at h
    simp only [exbind_ok] at h
    cases h2 : alookup rd0 "id" with
    | none => rw [h2] at h; exact absurd h (by simp [exbind_err])
    | some v =>
      rw [h2] at h
      simp only [exbind_ok] at h
      cases sk with
      | false =>
        simp only [Bool.false_eq_true, reduceIte, exbind_ok, Except.ok.injEq,
          Prod.mk.injEq] at h
        obtain ⟨h3, h4⟩ := h
        subst h4
        exact ⟨v, h2⟩
      | true =>
        cases h3 : pyStr2 v with
        | error e => rw [h3] at h; exact absurd h (by simp [exbind_err])
        | ok rid =>
          rw [h3] at h
          simp only [exbind_ok, reduceIte, Except.ok.injEq, Prod.mk.injEq] at h
          obtain ⟨h4, h5⟩ := h
          subst h5
          exact ⟨v, h2⟩

/-- Every row value produced by the `includeKey=True` row loop keeps an
`'id'` field (rows already in the accumulator stay as they were). -/
theorem foldTable_id (sk fu : Bool) (cols : List String) :
    ∀ (rows : List Row) (tm out : List (PyVal2 × Row)),
      rows.foldlM (tableStep sk fu true cols) tm = .ok out →
      (∀ p ∈ tm, ∃ v, alookup p.2 "id" = some v) →
      ∀ p ∈ out, ∃ v, alookup p.2 "id" = some v := by
  intro rows
  induction rows with
  | nil =>
    intro tm out h htm
    cases h
    exact htm
  | cons row rest ih =>
    intro tm out h htm
    simp only [List.foldlM_cons] at h
    cases h1 : rowEntry sk fu true cols row with
    | error e =>
      rw [show (tableStep sk fu true cols tm row) =
          (rowEntry sk fu true cols row) >>= _ from rfl, h1, exbind_err] at h
      exact absurd h (by simp [exbind_err])
    | ok p =>
      obtain ⟨ri, rd⟩ := p
      rw [show (tableStep sk fu true cols tm row) =
          (rowEntry sk fu true cols row) >>= _ from rfl, h1, exbind_ok] at h
      refine ih (aset tm ri rd) out h ?_
      intro q hq
      rcases mem_aset q tm ri rd hq with h2 | h2
      · rw [h2]; exact rowEntry_true_id sk fu cols row ri rd h1
      · exact htm q h2

/-- Every table produced by the `includeKey=True` entity loop has all its
row values carrying an `'id'` field. -/
theorem toDictFold_id (sk fu : Bool) (tdict : List (String × List Row)) :
    ∀ (ents : List Entity) (acc out : List (String × List (PyVal2 × Row))),
      ents.foldlM (toDictStep tdict sk fu true) acc = .ok out →
      (∀ q ∈ acc, ∀ p ∈ q.2, ∃ v, alookup p.2 "id" = some v) →
      ∀ q ∈ out, ∀ p ∈ q.2, ∃ v, alookup p.2 "id" = some v := by
  intro ents
  induction ents with
  | nil =>
    intro acc out h hacc
    cases h
    exact hacc
  | cons ent rest ih =>
    intro acc out h hacc
    simp only [List.foldlM_cons] at h
    cases h1 : alookup tdict ent.table with
    | none =>
      rw [toDictStep_none tdict sk fu true acc ent h1, exbind_err] at h
      exact absurd h (by simp)
    | some rows =>
      rw [toDictStep_some tdict sk fu true acc ent rows h1] at h
      by_cases he : rows = []
      · rw [if_pos he, exbind_ok] at h
        exact ih acc out h hacc
      · rw [if_neg he] at h
        cases h2 : toDictTable sk fu true ent.columns rows with
        | error e =>
          simp only [h2, exbind_err] at h
          exact absurd h (by simp)
        | ok tm =>
          simp only [h2, exbind_ok] at h
          refine ih (aset acc ent.table tm) out h ?_
          intro q hq
          rcases mem_aset q acc ent.table tm hq with h3 | h3
          · rw [h3]
            exact foldTable_id sk fu ent.columns rows [] tm h2 (by simp)
          · exact hacc q h3

/-- C1 — for every territorial data tree and the same `strKeys` and
`forceUnicode` flags: `toDict` with `includeKey=False` equals `toDict`
with `includeKey=True` with exactly the `'id'` binding filtered out of
every row's field map (all other fields and their order untouched, and
the two runs fail identically when they fail); and in the
`includeKey=True` result every row's field map does carry the `'id'`
field. -/
theorem claim_c1_toDict_includeKey (td : TerritorialData) (sk fu : Bool) :
    td.toDict sk fu false = (td.toDict sk fu true).map (mapVals (mapVals eraseId)) ∧
    (∀ out, td.toDict sk fu true = .ok out →
      ∀ q ∈ out, ∀ p ∈ q.2, ∃ v, alookup p.2 "id" = some v) := by
  constructor
  · exact toDictFold_false sk fu td.tdict TerritorialData.entities []
  · intro out h
    exact toDictFold_id sk fu td.tdict TerritorialData.entities [] out h (by simp)

/-! ## `toDict` success and empty-table skipping: claim C4 -/

/-- `Char.ofNat` on a valid code point evaluates to that code point. -/
theorem toNat_ofNat_valid (n : Nat) (h : n.isValidChar) :
    (Char.ofNat n).toNat = n := by
  rw [Char.ofNat, dif_pos h]
  rfl

/-- The coercion of one value cannot fail on ASCII-clean values, and
preserves cleanliness. -/
theorem coerceVal_ok (fu : Bool) (v : PyVal2) (h : ValOk v) :
    ∃ v', coerceVal fu v = .ok v' ∧ ValOk v' := by
  cases fu with
  | false => exact ⟨v, rfl, h⟩
  | true =>
    cases v with
    | int n => exact ⟨.int n, rfl, trivial⟩
    | uni s => exact ⟨.uni s, rfl, h⟩
    | str b =>
      have hb : b.all (· < 128) = true := by
        simp only [List.all_eq_true, decide_eq_true_eq]
        exact h
      refine ⟨.uni (b.map (Char.ofNat ·)), ?_, ?_⟩
      · show pyUnicode b = _
        unfold pyUnicode
        rw [if_pos hb]
      · intro c hc
        simp only [List.mem_map] at hc
        obtain ⟨x, hx, rfl⟩ := hc
        rw [toNat_ofNat_valid x (Or.inl (by have := h x hx; omega))]
        exact h x hx

/-- `str()` cannot fail on ASCII-clean values. -/
theorem pyStr2_ok (v : PyVal2) (h : ValOk v) : ∃ w, pyStr2 v = .ok w := by
  cases v with
  | int n => exact ⟨_, rfl⟩
  | str b => exact ⟨_, rfl⟩
  | uni s =>
    have hb : s.all (·.toNat < 128) = true := by
      simp only [List.all_eq_true, decide_eq_true_eq]
      exact h
    exact ⟨.str (s.map Char.toNat), by simp only [pyStr2, hb, if_true]⟩

/-- Unpacking a `ColClean` fact. -/
theorem colClean_elim (row : Row) (c : String) (h : ColClean row c) :
    ∃ v, alookup row c = some v ∧ ValOk v := by
  unfold ColClean at h
  cases hv : alookup row c with
  | none => rw [hv] at h; exact h.elim
  | some v => rw [hv] at h; exact ⟨v, rfl, h⟩

/-- A lookup in `aset m k v` finds the new value or an old binding. -/
theorem alookup_aset_cases {α β : Type} [DecidableEq α] (m : List (α × β)) (k k' : α)
    (v w : β) (h : alookup (aset m k v) k' = some w) : w = v ∨ alookup m k' = some w := by
  by_cases hk : k = k'
  · subst hk
    rw [alookup_aset_self] at h
    exact Or.inl (Option.some.inj h).symm
  · rw [alookup_aset_ne m k k' v hk] at h
    exact Or.inr h

/-- The column loop succeeds on clean rows, produces only clean values,
keeps every key of the accumulator, and covers every column. -/
theorem colFold_ok (fu : Bool) (row : Row) :
    ∀ (cols : List String) (acc : Row),
      (∀ c ∈ cols, ColClean row c) →
      (∀ k w, alookup acc k = some w → ValOk w) →
      ∃ rd, cols.foldlM (colStep fu row) acc = .ok rd ∧
        (∀ k w, alookup rd k = some w → ValOk w) ∧
        (∀ k w, alookup acc k = some w → ∃ w', alookup rd k = some w') ∧
        (∀ c ∈ cols, ∃ w', alookup rd c = some w') := by
  intro cols
  induction cols with
  | nil =>
    intro acc h hacc
    exact ⟨acc, rfl, hacc, fun k w hw => ⟨w, hw⟩, by simp⟩
  | cons c cs ih =>
    intro acc h hacc
    obtain ⟨v, hv, hvok⟩ := colClean_elim row c (h c (by simp))
    obtain ⟨v', hv', hv'ok⟩ := coerceVal_ok fu v hvok
    have hstep : colStep fu row acc c = .ok (aset acc c v') := by
      simp only [colStep, hv, hv', exbind_ok]
    have hacc' : ∀ k w, alookup (aset acc c v') k = some w → ValOk w := by
      intro k w hw
      rcases alookup_aset_cases acc c k v' w hw with h1 | h1
      · rw [h1]; exact hv'ok
      · exact hacc k w h1
    obtain ⟨rd, hfold, hvals, hpres, hcols⟩ :=
      ih (aset acc c v') (fun c' hc' => h c' (by simp [hc'])) hacc'
    refine ⟨rd, ?_, hvals, ?_, ?_⟩
    · simp only [List.foldlM_cons, hstep, exbind_ok]
      exact hfold
    · intro k w hw
      by_cases hk : c = k
      · subst hk
        exact hpres c v' (alookup_aset_self acc c v')
      · exact hpres k w (by rw [alookup_aset_ne acc c k v' hk]; exact hw)
    · intro c' hc'
      rcases List.mem_cons.mp hc' with rfl | hc2
      · exact hpres c' v' (alookup_aset_self acc c' v')
      · exact hcols c' hc2

/-- A row entry succeeds on a clean row whose columns include `'id'`,
for any flag combination. -/
theorem rowEntry_ok (sk fu ik : Bool) (cols : List String) (row : Row)
    (hid : "id" ∈ cols) (h : ∀ c ∈ cols, ColClean row c) :
    ∃ p, rowEntry sk fu ik cols row = .ok p := by
  obtain ⟨rd, hfold, hvals, _, hcols⟩ :=
    colFold_ok fu row cols [] h (by intro k w hw; cases hw)
  obtain ⟨w, hw⟩ := hcols "id" hid
  have hwok := hvals "id" w hw
  have hrd : rowToData fu cols row = .ok rd := hfold
  cases sk with
  | false =>
    cases ik with
    | true =>
      refine ⟨(w, rd), ?_⟩
      unfold rowEntry
      rw [hrd]
      simp only [exbind_ok, hw, Bool.false_eq_true, reduceIte]
    | false =>
      refine ⟨(w, rd.filter (fun p => p.1 ≠ "id")), ?_⟩
      unfold rowEntry
      rw [hrd]
      simp only [exbind_ok, hw, Bool.false_eq_true, reduceIte, adel, exbind_ok]
  | true =>
    obtain ⟨rid, hrid⟩ := pyStr2_ok w hwok
    cases ik with
    | true =>
      refine ⟨(rid, rd), ?_⟩
      unfold rowEntry
      rw [hrd]
      simp only [exbind_ok, hw, Bool.false_eq_true, reduceIte, hrid, exbind_ok]
    | false =>
      refine ⟨(rid, rd.filter (fun p => p.1 ≠ "id")), ?_⟩
      unfold rowEntry
      rw [hrd]
      simp only [exbind_ok, hw, Bool.false_eq_true, reduceIte, hrid, adel, exbind_ok]

/-- The row loop over a table succeeds on clean rows. -/
theorem tableFold_ok (sk fu ik : Bool) (cols : List String) (hid : "id" ∈ cols) :
    ∀ (rows : List Row) (tm : List (PyVal2 × Row)),
      (∀ row ∈ rows, ∀ c ∈ cols, ColClean row c) →
      ∃ out, rows.foldlM (tableStep sk fu ik cols) tm = .ok out := by
  intro rows
  induction rows with
  | nil => intro tm _; exact ⟨tm, rfl⟩
  | cons row rest ih =>
    intro tm h
    obtain ⟨⟨ri, rd⟩, hre⟩ := rowEntry_ok sk fu ik cols row hid (h row (by simp))
    obtain ⟨out, hout⟩ := ih (aset tm ri rd) (fun r hr c hc => h r (by simp [hr]) c hc)
    refine ⟨out, ?_⟩
    simp only [List.foldlM_cons]
    show (tableStep sk fu ik cols tm row) >>= _ = _
    unfold tableStep
    rw [hre]
    simp only [exbind_ok]
    exact hout

/-- Setting a fresh key appends the binding at the end. -/
theorem aset_not_mem {α β : Type} [DecidableEq α] (m : List (α × β)) (k : α) (v : β)
    (h : alookup m k = none) : aset m k v = m ++ [(k, v)] := by
  induction m with
  | nil => rfl
  | cons p rest ih =>
    obtain ⟨k', v'⟩ := p
    unfold alookup at h
    by_cases hk : k' = k
    · rw [if_pos hk] at h
      exact absurd h (by simp)
    · rw [if_neg hk] at h
      simp [aset, hk, ih h]

/-- Appending a differently-keyed binding keeps a key absent. -/
theorem alookup_append_none {α β : Type} [DecidableEq α] (m : List (α × β)) (k k' : α)
    (v : β) (h : alookup m k' = none) (hk : ¬ k = k') :
    alookup (m ++ [(k, v)]) k' = none := by
  induction m with
  | nil => simp [alookup, hk]
  | cons p rest ih =>
    obtain ⟨k'', v''⟩ := p
    unfold alookup at h
    by_cases h2 : k'' = k'
    · rw [if_pos h2] at h
      exact absurd h (by simp)
    · rw [if_neg h2] at h
      rw [List.cons_append]
      unfold alookup
      rw [if_neg h2]
      exact ih h

/-- The entity loop on a clean `_dict`: it succeeds, and the keys of the
result are exactly the tables of the entities with at least one row, in
entity order. -/
theorem toDictFold_ok_keys (sk fu ik : Bool) (tdict : List (String × List Row)) :
    ∀ (ents : List Entity) (acc : List (String × List (PyVal2 × Row))),
      (∀ e ∈ ents, TableClean e.columns (alookup tdict e.table) ∧ "id" ∈ e.columns) →
      (ents.map Entity.table).Nodup →
      (∀ e ∈ ents, alookup acc e.table = none) →
      ∃ out, ents.foldlM (toDictStep tdict sk fu ik) acc = .ok out ∧
        out.map Prod.fst = acc.map Prod.fst ++
          (ents.filter (fun e => decide (alookup tdict e.table ≠ some []))).map
            Entity.table := by
  intro ents
  induction ents with
  | nil => intro acc _ _ _; exact ⟨acc, rfl, by simp⟩
  | cons ent rest ih =>
    intro acc h hnd hfresh
    obtain ⟨hclean, hid⟩ := h ent (by simp)
    cases hrows : alookup tdict ent.table with
    | none => rw [hrows] at hclean; exact hclean.elim
    | some rows =>
      rw [hrows] at hclean
      by_cases he : rows = []
      · have hstep : toDictStep tdict sk fu ik acc ent = .ok acc := by
          rw [toDictStep_some tdict sk fu ik acc ent rows hrows, if_pos he]
        obtain ⟨out, hout, hkeys⟩ := ih acc
          (fun e hrest => h e (by simp [hrest]))
          ((List.nodup_cons.mp hnd).2)
          (fun e hrest => hfresh e (by simp [hrest]))
        refine ⟨out, ?_, ?_⟩
        · simp only [List.foldlM_cons, hstep, exbind_ok]
          exact hout
        · rw [hkeys]
          congr 1
          rw [List.filter_cons]
          simp [hrows, he]
      · obtain ⟨tm, htm⟩ := tableFold_ok sk fu ik ent.columns hid rows [] hclean
        have htm' : toDictTable sk fu ik ent.columns rows = .ok tm := htm
        have hstep : toDictStep tdict sk fu ik acc ent = .ok (aset acc ent.table tm) := by
          rw [toDictStep_some tdict sk fu ik acc ent rows hrows, if_neg he]
          simp only [htm', exbind_ok]
        have hfreshent := hfresh ent (by simp)
        have hacc' : aset acc ent.table tm = acc ++ [(ent.table, tm)] :=
          aset_not_mem acc ent.table tm hfreshent
        have hfresh' : ∀ e ∈ rest, alookup (aset acc ent.table tm) e.table = none := by
          intro e hrest
          rw [hacc']
          refine alookup_append_none acc ent.table e.table tm
            (hfresh e (by simp [hrest])) ?_
          intro heq
          exact (List.nodup_cons.mp hnd).1
            (heq ▸ List.mem_map_of_mem Entity.table hrest)
        obtain ⟨out, hout, hkeys⟩ := ih (aset acc ent.table tm)
          (fun e hrest => h e (by simp [hrest]))
          ((List.nodup_cons.mp hnd).2)
          hfresh'
        refine ⟨out, ?_, ?_⟩
        · simp only [List.foldlM_cons, hstep, exbind_ok]
          exact hout
        · rw [hkeys, hacc']
          rw [List.filter_cons]
          simp [hrows, he, List.map_append]

/-- C4 — on every loaded (clean) tree and every flag combination,
`toDict` succeeds (the silent skip of empty tables raises no error), an
entity kind with zero rows contributes no key at all to the result, and
the result's keys are exactly the tables of the entity kinds with at
least one row, in the fixed dependency order `uf`, `mesorregiao`,
`microrregiao`, `municipio`, `distrito`, `subdistrito`. -/
theorem claim_c4_empty_tables_skipped (td : TerritorialData) (sk fu ik : Bool)
    (h : CleanTD td) :
    ∃ out, td.toDict sk fu ik = .ok out ∧
      out.map Prod.fst =
        (TerritorialData.entities.filter
          (fun e => decide (alookup td.tdict e.table ≠ some []))).map Entity.table := by
  obtain ⟨out, hout, hkeys⟩ := toDictFold_ok_keys sk fu ik td.tdict
    TerritorialData.entities []
    (fun e he => ⟨h e he, by fin_cases he <;> decide⟩)
    (by decide)
    (fun e _ => rfl)
  exact ⟨out, hout, by rw [hkeys]; simp⟩

/-- Witness for C4 at the one-state tree: `toDict` succeeds and its only
key is the `uf` table. -/
theorem claim_c4_witness :
    ∃ out, tdExample.toDict false false false = .ok out ∧
      out.map Prod.fst = ["uf"] := by
  obtain ⟨out, h1, h2⟩ :=
    claim_c4_empty_tables_skipped tdExample false false false (by decide)
  exact ⟨out, h1, by rw [h2]; rfl⟩

/-- Witness for C1 at the one-state tree, applying the theorem at a
concrete tree and output. -/
theorem claim_c1_witness :
    tdExample.toDict false false false =
      (tdExample.toDict false false true).map (mapVals (mapVals eraseId)) ∧
    ∃ v, alookup [("id", PyVal2.int 11), ("nome", PyVal2.str [82, 79])] "id" = some v :=
  ⟨(claim_c1_toDict_includeKey tdExample false false).1,
   (claim_c1_toDict_includeKey tdExample false false).2
     [("uf", [(PyVal2.int 11, [("id", PyVal2.int 11), ("nome", PyVal2.str [82, 79])])])]
     rfl
     ("uf", [(PyVal2.int 11, [("id", PyVal2.int 11), ("nome", PyVal2.str [82, 79])])])
     (by simp)
     (PyVal2.int 11, [("id", PyVal2.int 11), ("nome", PyVal2.str [82, 79])])
     (by simp)⟩

/-! ## `TerritorialBase.export`: claims C3 and C8 -/

/-- C3 — requesting a format name that is not in the exporter registry
raises `Exception('Unsupported output format.')` as the very first
action: no file write, no log line, no other effect is performed (the
territorial data is never touched — `export` reads it only through the
exporter it never obtained). -/
theorem claim_c3_unsupported_format (FORMATS : List (String × ExporterPlugin))
    (d : TerritorialData) (format : String) (minified : Bool)
    (filename : Option String) (h : alookup FORMATS format = none) :
    TerritorialBase.export FORMATS d format minified filename =
      ([], .error (.exception "Unsupported output format.")) := by
  unfold TerritorialBase.export
  rw [h]

/-- Witness for C3: the format `"fictional-format"` against a registry
holding only `"xml"`. -/
theorem claim_c3_witness :
    TerritorialBase.export [("xml", expExample)] tdExample "fictional-format"
      false none = ([], .error (.exception "Unsupported output format.")) :=
  claim_c3_unsupported_format [("xml", expExample)] tdExample "fictional-format"
    false none rfl

/-- C8 — for every export invocation that succeeds, exactly one write is
performed, and its destination follows the filename argument: an
explicitly given (non-empty, non-`'auto'`) filename is written to as a
file; the `'auto'` filename derives `'dtb' + extension` from the
exporter; and with no filename the output goes to standard output. -/
theorem claim_c8_output_routing (FORMATS : List (String × ExporterPlugin))
    (d : TerritorialData) (format : String) (minified : Bool)
    (filename : Option String) (exporter : ExporterPlugin)
    (h : alookup FORMATS format = some exporter)
    (hok : (TerritorialBase.export FORMATS d format minified filename).2 = .ok ()) :
    writeTargets (TerritorialBase.export FORMATS d format minified filename).1 =
      [expectedTarget exporter.extension filename] := by
  have hex : TerritorialBase.export FORMATS d format minified filename =
      (match decodeData exporter.binaryFormat (exporter.run d minified) with
       | Except.error e =>
         ([.log (exportLogMsg minified exporter.formatName)], Except.error e)
       | Except.ok data' =>
         ([.log (exportLogMsg minified exporter.formatName), .log "Done.",
           exportWrite exporter.extension data' filename], Except.ok ())) := by
    unfold TerritorialBase.export
    rw [h]
  cases hd : decodeData exporter.binaryFormat (exporter.run d minified) with
  | error e =>
    rw [hex, hd] at hok
    simp at hok
  | ok data' =>
    rw [hex, hd]
    cases filename with
    | none => simp [writeTargets, exportWrite, expectedTarget]
    | some f =>
      by_cases h1 : f = ""
      · simp [writeTargets, exportWrite, expectedTarget, h1]
      · by_cases h2 : f = "auto" <;>
          simp [writeTargets, exportWrite, expectedTarget, h1, h2]

/-- Witness for C8: an explicit filename with a one-entry registry. -/
theorem claim_c8_witness :
    writeTargets (TerritorialBase.export [("xml", expExample)] tdExample "xml"
      false (some "out.xml")).1 = [expectedTarget ".xml" (some "out.xml")] :=
  claim_c8_output_routing [("xml", expExample)] tdExample "xml" false
    (some "out.xml") expExample rfl rfl

/-! ## The XML encoder: claim C6 -/

/-- Each serialized table contributes exactly one `table` element to the
root's children (and its comment contributes none). -/
theorem countTag_table_blocks
    (data : List (List Char × List (Scalar × List (List Char × List Char)))) :
    countTag "table" (data.flatMap (fun p =>
      [XNode.comment (" Table ".toList ++ p.1 ++ " ".toList), tableXml p.1 p.2])) =
      data.length := by
  induction data with
  | nil => rfl
  | cons p rest ih =>
    simp [List.flatMap_cons, countTag, List.countP_append, List.countP_cons,
      XNode.isTag, tableXml] at ih ⊢
    omega

/-- The `name` attributes of the root's `table` elements are the
serialized table names, in order. -/
theorem tableNames_blocks
    (data : List (List Char × List (Scalar × List (List Char × List Char)))) :
    tableNames (data.flatMap (fun p =>
      [XNode.comment (" Table ".toList ++ p.1 ++ " ".toList), tableXml p.1 p.2])) =
      data.map Prod.fst := by
  induction data with
  | nil => rfl
  | cons p rest ih =>
    simp [List.flatMap_cons, tableNames, List.filterMap_append, List.filterMap_cons,
      tableXml, alookup] at ih ⊢
    exact ih

/-- The serializer keeps exactly the tables with at least one row, in
order. -/
theorem serialize_keys (tree : Dataset) :
    (serialize tree).map Prod.fst = (tree.filter (fun p => !p.2.isEmpty)).map Prod.fst := by
  induction tree with
  | nil => rfl
  | cons p rest ih =>
    obtain ⟨t, rows⟩ := p
    cases rows with
    | nil =>
      simp [serialize, List.filterMap_cons, List.filter_cons] at ih ⊢
      exact ih
    | cons r rs =>
      simp [serialize, List.filterMap_cons, List.filter_cons] at ih ⊢
      exact ih

/-- C6 — the XML encoder's output: the root is a `database` element whose
`name` attribute is the translated dataset name; its children are, for
each serialized (non-empty) table in order, one comment plus one `table`
element named by the table name, so that the number of `table` elements
equals the number of tables with at least one row; each table element
holds one `row` element per record, and each row holds one `field`
element per column carrying the column name as attribute and the
stringified value as element text. In particular, for a tree with one
state row and zero rows in every other table the output has exactly one
`table` element, named `uf`, and none for the empty tables. -/
theorem claim_c6_xml_encoding (tr : String → List Char) (tree : Dataset) :
    XmlEncoder.encode tr tree =
      XNode.element "database" [("name", tr "dataset_name")] none
        ((serialize tree).flatMap (fun p =>
          [XNode.comment (" Table ".toList ++ p.1 ++ " ".toList), tableXml p.1 p.2])) ∧
    countTag "table" (XmlEncoder.encode tr tree).childrenOf =
      (tree.filter (fun p => !p.2.isEmpty)).length ∧
    tableNames (XmlEncoder.encode tr tree).childrenOf =
      (tree.filter (fun p => !p.2.isEmpty)).map Prod.fst ∧
    (∀ t rows, (t, rows) ∈ serialize tree →
      (tableXml t rows).childrenOf.length = rows.length ∧
      ∀ kr ∈ rows, rowXml kr.2 =
        XNode.element "row" [] none (kr.2.map (fun cv => fieldXml cv.1 cv.2)) ∧
        ∀ cv ∈ kr.2, fieldXml cv.1 cv.2 =
          XNode.element "field" [("name", cv.1)] (some cv.2) []) ∧
    (∀ (k : Scalar) (r : List (List Char × Scalar)),
      countTag "table" (XmlEncoder.encode tr (ufOnlyTree k r)).childrenOf = 1 ∧
      tableNames (XmlEncoder.encode tr (ufOnlyTree k r)).childrenOf = ["uf".toList]) := by
  refine ⟨rfl, ?_, ?_, ?_, ?_⟩
  · show countTag "table" ((serialize tree).flatMap _) = _
    rw [countTag_table_blocks]
    have := congrArg List.length (serialize_keys tree)
    simpa using this
  · show tableNames ((serialize tree).flatMap _) = _
    rw [tableNames_blocks]
    exact serialize_keys tree
  · intro t rows _
    refine ⟨by simp [tableXml, XNode.childrenOf], ?_⟩
    intro kr _
    exact ⟨rfl, fun cv _ => rfl⟩
  · intro k r
    constructor
    · show countTag "table" ((serialize (ufOnlyTree k r)).flatMap _) = 1
      rw [countTag_table_blocks]
      rfl
    · show tableNames ((serialize (ufOnlyTree k r)).flatMap _) = _
      rw [tableNames_blocks]
      rfl

/-- Witness for C6 at a concrete translated name and the one-row dataset. -/
theorem claim_c6_witness :
    countTag "table" (XmlEncoder.encode (fun s => s.toList) dsExample).childrenOf = 1 ∧
    tableNames (XmlEncoder.encode (fun s => s.toList) dsExample).childrenOf =
      ["uf".toList] ∧
    (tableXml "uf".toList
        [(Scalar.int 11, [("id".toList, "11".toList), ("nome".toList, "RO".toList)])]).childrenOf.length = 1 := by
  refine ⟨?_, ?_, ?_⟩
  · exact (claim_c6_xml_encoding (fun s => s.toList) dsExample).2.1
  · exact (claim_c6_xml_encoding (fun s => s.toList) dsExample).2.2.1
  · exact ((claim_c6_xml_encoding (fun s => s.toList) dsExample).2.2.2.1
      "uf".toList
      [(Scalar.int 11, [("id".toList, "11".toList), ("nome".toList, "RO".toList)])]
      (by simp [serialize, dsExample, pyStr3]; rfl)).1

/-! ## The MessagePack round trip: claim C5 -/

/-- The UTF-8 encoding of a scalar is at least one byte. -/
theorem utf8EncodeScalar_length_pos (n : Nat) : 1 ≤ (utf8EncodeScalar n).length := by
  unfold utf8EncodeScalar
  split
  · simp
  · split
    · simp
    · split <;> simp

/-- A string is at most as long as its UTF-8 encoding. -/
theorem utf8Encode_length (s : List Char) : s.length ≤ (utf8Encode s).length := by
  induction s with
  | nil => simp [utf8Encode]
  | cons c cs ih =>
    have := utf8EncodeScalar_length_pos c.toNat
    simp only [utf8Encode, List.length_append, List.length_cons]
    omega

/-- The code point of any `Char` is a valid scalar value. -/
theorem char_toNat_valid (c : Char) : Nat.isValidChar c.toNat := c.valid

/-- Repacking the code point of a `Char` gives the same `Char` back. -/
theorem ofNatAux_toNat (c : Char) (h : Nat.isValidChar c.toNat) :
    Char.ofNatAux c.toNat h = c := by
  have h2 := Char.ofNat_toNat c
  rw [Char.ofNat, dif_pos h] at h2
  exact h2

/-- Decoding one scalar from the UTF-8 encoding of a valid scalar value
returns the value and the trailing bytes. -/
theorem utf8DecodeOne_encodeScalar (n : Nat) (hv : Nat.isValidChar n)
    (rest : List Nat) :
    utf8DecodeOne (utf8EncodeScalar n ++ rest) = some (n, rest) := by
  have hlt : n < 0x110000 := by
    rcases hv with h | ⟨h1, h2⟩ <;> omega
  unfold utf8EncodeScalar
  by_cases h1 : n < 0x80
  · rw [if_pos h1]
    simp only [List.cons_append, List.nil_append, utf8DecodeOne]
    rw [if_pos h1]
  · rw [if_neg h1]
    by_cases h2 : n < 0x800
    · rw [if_pos h2]
      simp only [List.cons_append, List.nil_append, utf8DecodeOne]
      rw [if_neg (by omega), if_neg (by omega), if_pos (by omega)]
      rw [if_pos (show isCont (0x80 + n % 64) from ⟨by omega, by omega⟩)]
      rw [if_pos (by omega)]
      simp only [Option.some.injEq, Prod.mk.injEq]
      exact ⟨by omega, trivial⟩
    · rw [if_neg h2]
      by_cases h3 : n < 0x10000
      · rw [if_pos h3]
        simp only [List.cons_append, List.nil_append, utf8DecodeOne]
        rw [if_neg (by omega), if_neg (by omega), if_neg (by omega), if_pos (by omega)]
        rw [if_pos (show isCont (0x80 + n / 64 % 64) ∧ isCont (0x80 + n % 64) from
          ⟨⟨by omega, by omega⟩, ⟨by omega, by omega⟩⟩)]
        rw [if_pos (by omega)]
        simp only [Option.some.injEq, Prod.mk.injEq]
        exact ⟨by omega, trivial⟩
      · rw [if_neg h3]
        simp only [List.cons_append, List.nil_append, utf8DecodeOne]
        rw [if_neg (by omega), if_neg (by omega), if_neg (by omega), if_neg (by omega),
          if_pos (by omega)]
        rw [if_pos (show isCont (0x80 + n / 4096 % 64) ∧ isCont (0x80 + n / 64 % 64) ∧
            isCont (0x80 + n % 64) from
          ⟨⟨by omega, by omega⟩, ⟨by omega, by omega⟩, ⟨by omega, by omega⟩⟩)]
        rw [if_pos (by omega)]
        simp only [Option.some.injEq, Prod.mk.injEq]
        exact ⟨by omega, trivial⟩

/-- Decoding the UTF-8 encoding of a string returns the string, given at
least one unit of fuel per character. -/
theorem utf8DecodeLoop_encode (s : List Char) :
    ∀ (fuel : Nat), s.length ≤ fuel →
      utf8DecodeLoop fuel (utf8Encode s) = some s := by
  induction s with
  | nil => intro fuel _; cases fuel <;> rfl
  | cons c cs ih =>
    intro fuel hfuel
    cases fuel with
    | zero => simp at hfuel
    | succ fuel' =>
      have hpos := utf8EncodeScalar_length_pos c.toNat
      cases henc : utf8EncodeScalar c.toNat with
      | nil => rw [henc] at hpos; simp at hpos
      | cons b tail =>
        have hdec := utf8DecodeOne_encodeScalar c.toNat (char_toNat_valid c)
          (utf8Encode cs)
        rw [henc] at hdec
        show utf8DecodeLoop (fuel' + 1)
          (utf8EncodeScalar c.toNat ++ utf8Encode cs) = _
        rw [henc, List.cons_append]
        simp only [utf8DecodeLoop]
        rw [show (b :: (tail ++ utf8Encode cs)) = ((b :: tail) ++ utf8Encode cs)
          from rfl]
        simp only [hdec]
        rw [dif_pos (char_toNat_valid c)]
        rw [ofNatAux_toNat c (char_toNat_valid c)]
        rw [ih fuel' (by simp at hfuel; omega)]
        rfl

/-- `utf8Decode` inverts `utf8Encode`. -/
theorem utf8Decode_encode (s : List Char) :
    utf8Decode (utf8Encode s) = some s :=
  utf8DecodeLoop_encode s (utf8Encode s).length (utf8Encode_length s)

/-- Bind on `Option` after `some`. -/
theorem obind_some {α β : Type} (a : α) (f : α → Option β) : (some a >>= f) = f a := rfl

/-- Bind on `Option` after `none`. -/
theorem obind_none {α β : Type} (f : α → Option β) : ((none : Option α) >>= f) = none := rfl

/-- Decoding a positive fixint. -/
theorem decVal_fixint (fuel b : Nat) (bs : List Nat) (h : b ≤ 0x7F) :
    decVal (fuel + 1) (b :: bs) = some (.int (b : Int), bs) := by
  simp only [decVal]
  rw [if_pos h]

/-- Decoding a fixmap header. -/
theorem decVal_fixmap (fuel b : Nat) (bs : List Nat) (h1 : 0x80 ≤ b) (h2 : b ≤ 0x8F) :
    decVal (fuel + 1) (b :: bs) =
      (decEntriesF (decVal fuel) (b - 0x80) bs).map (fun p => (.map p.1, p.2)) := by
  simp only [decVal]
  rw [if_neg (by omega), if_pos h2]

/-- Decoding a fixraw header. -/
theorem decVal_fixraw (fuel b : Nat) (bs : List Nat) (h1 : 0xA0 ≤ b) (h2 : b ≤ 0xBF) :
    decVal (fuel + 1) (b :: bs) = decRaw (b - 0xA0) bs := by
  simp only [decVal]
  rw [if_neg (by omega), if_neg (by omega), if_pos ⟨h1, h2⟩]

/-- Decoding a negative fixint. -/
theorem decVal_negfix (fuel b : Nat) (bs : List Nat) (h1 : 0xE0 ≤ b) (h2 : b ≤ 0xFF) :
    decVal (fuel + 1) (b :: bs) = some (.int ((b : Int) - 0x100), bs) := by
  interval_cases b <;> simp [decVal]

/-- Decoding a `uint8` value. -/
theorem decVal_cc (fuel b0 : Nat) (bs : List Nat) :
    decVal (fuel + 1) (0xCC :: b0 :: bs) = some (.int (b0 : Int), bs) := by
  simp [decVal]

/-- Decoding a `uint16` value. -/
theorem decVal_cd (fuel b0 b1 : Nat) (bs : List Nat) :
    decVal (fuel + 1) (0xCD :: b0 :: b1 :: bs) =
      some (.int ((b0 * 2 ^ 8 + b1 : Nat) : Int), bs) := by
  simp [decVal]

/-- Decoding a `uint32` value. -/
theorem decVal_ce (fuel b0 b1 b2 b3 : Nat) (bs : List Nat) :
    decVal (fuel + 1) (0xCE :: b0 :: b1 :: b2 :: b3 :: bs) =
      some (.int ((b0 * 2 ^ 24 + b1 * 2 ^ 16 + b2 * 2 ^ 8 + b3 : Nat) : Int), bs) := by
  simp [decVal]

/-- Decoding a `uint64` value. -/
theorem decVal_cf (fuel b0 b1 b2 b3 b4 b5 b6 b7 : Nat) (bs : List Nat) :
    decVal (fuel + 1) (0xCF :: b0 :: b1 :: b2 :: b3 :: b4 :: b5 :: b6 :: b7 :: bs) =
      some (.int ((b0 * 2 ^ 56 + b1 * 2 ^ 48 + b2 * 2 ^ 40 + b3 * 2 ^ 32 +
        b4 * 2 ^ 24 + b5 * 2 ^ 16 + b6 * 2 ^ 8 + b7 : Nat) : Int), bs) := by
  simp [decVal]

/-- Decoding an `int8` value. -/
theorem decVal_d0 (fuel b0 : Nat) (bs : List Nat) :
    decVal (fuel + 1) (0xD0 :: b0 :: bs) =
      some (.int (if b0 < 0x80 then (b0 : Int) else (b0 : Int) - 0x100), bs) := by
  simp [decVal]

/-- Decoding an `int16` value. -/
theorem decVal_d1 (fuel b0 b1 : Nat) (bs : List Nat) :
    decVal (fuel + 1) (0xD1 :: b0 :: b1 :: bs) =
      some (.int (if b0 * 2 ^ 8 + b1 < 0x8000 then ((b0 * 2 ^ 8 + b1 : Nat) : Int)
        else ((b0 * 2 ^ 8 + b1 : Nat) : Int) - 0x10000), bs) := by
  simp [decVal]

/-- Decoding an `int32` value. -/
theorem decVal_d2 (fuel b0 b1 b2 b3 : Nat) (bs : List Nat) :
    decVal (fuel + 1) (0xD2 :: b0 :: b1 :: b2 :: b3 :: bs) =
      some (.int
        (if b0 * 2 ^ 24 + b1 * 2 ^ 16 + b2 * 2 ^ 8 + b3 < 0x80000000 then
          ((b0 * 2 ^ 24 + b1 * 2 ^ 16 + b2 * 2 ^ 8 + b3 : Nat) : Int)
        else ((b0 * 2 ^ 24 + b1 * 2 ^ 16 + b2 * 2 ^ 8 + b3 : Nat) : Int) -
          0x100000000), bs) := by
  simp [decVal]

/-- Decoding an `int64` value. -/
theorem decVal_d3 (fuel b0 b1 b2 b3 b4 b5 b6 b7 : Nat) (bs : List Nat) :
    decVal (fuel + 1) (0xD3 :: b0 :: b1 :: b2 :: b3 :: b4 :: b5 :: b6 :: b7 :: bs) =
      some (.int
        (if b0 * 2 ^ 56 + b1 * 2 ^ 48 + b2 * 2 ^ 40 + b3 * 2 ^ 32 +
            b4 * 2 ^ 24 + b5 * 2 ^ 16 + b6 * 2 ^ 8 + b7 < 2 ^ 63 then
          ((b0 * 2 ^ 56 + b1 * 2 ^ 48 + b2 * 2 ^ 40 + b3 * 2 ^ 32 +
            b4 * 2 ^ 24 + b5 * 2 ^ 16 + b6 * 2 ^ 8 + b7 : Nat) : Int)
        else ((b0 * 2 ^ 56 + b1 * 2 ^ 48 + b2 * 2 ^ 40 + b3 * 2 ^ 32 +
            b4 * 2 ^ 24 + b5 * 2 ^ 16 + b6 * 2 ^ 8 + b7 : Nat) : Int) - 2 ^ 64),
        bs) := by
  simp [decVal]

/-- Decoding a `raw16` header. -/
theorem decVal_da (fuel b0 b1 : Nat) (bs : List Nat) :
    decVal (fuel + 1) (0xDA :: b0 :: b1 :: bs) = decRaw (b0 * 2 ^ 8 + b1) bs := by
  simp [decVal]

/-- Decoding a `raw32` header. -/
theorem decVal_db (fuel b0 b1 b2 b3 : Nat) (bs : List Nat) :
    decVal (fuel + 1) (0xDB :: b0 :: b1 :: b2 :: b3 :: bs) =
      decRaw (b0 * 2 ^ 24 + b1 * 2 ^ 16 + b2 * 2 ^ 8 + b3) bs := by
  simp [decVal]

/-- Decoding a `map16` header. -/
theorem decVal_de (fuel b0 b1 : Nat) (bs : List Nat) :
    decVal (fuel + 1) (0xDE :: b0 :: b1 :: bs) =
      (decEntriesF (decVal fuel) (b0 * 2 ^ 8 + b1) bs).map (fun p => (.map p.1, p.2)) := by
  simp [decVal]

/-- Decoding a `map32` header. -/
theorem decVal_df (fuel b0 b1 b2 b3 : Nat) (bs : List Nat) :
    decVal (fuel + 1) (0xDF :: b0 :: b1 :: b2 :: b3 :: bs) =
      (decEntriesF (decVal fuel) (b0 * 2 ^ 24 + b1 * 2 ^ 16 + b2 * 2 ^ 8 + b3) bs).map
        (fun p => (.map p.1, p.2)) := by
  simp [decVal]

/-- Decoding the raw encoding of a string returns the string and the
trailing bytes. -/
theorem decRaw_enc (s : List Char) (rest : List Nat) :
    decRaw (utf8Encode s).length (utf8Encode s ++ rest) = some (.str s, rest) := by
  unfold decRaw
  rw [List.take_left]
  rw [if_pos rfl]
  simp only [utf8Decode_encode, List.drop_left]

/-- Every value has depth at least 1. -/
theorem depthVal_pos (v : MsgVal) : 1 ≤ depthVal v := by
  cases v <;> simp [depthVal]

/-- Entries decode against their encoding, given a value decoder that is
correct up to the entries' depth. -/
theorem decEntriesF_enc (fuel : Nat)
    (hV : ∀ (v : MsgVal) (bs rest : List Nat), depthVal v ≤ fuel →
      encVal v = some bs → decVal fuel (bs ++ rest) = some (v, rest)) :
    ∀ (kvs : List (MsgVal × MsgVal)) (bs rest : List Nat),
      depthEntries kvs ≤ fuel → encEntries kvs = some bs →
      decEntriesF (decVal fuel) kvs.length (bs ++ rest) = some (kvs, rest) := by
  intro kvs
  induction kvs with
  | nil =>
    intro bs rest _ h
    simp only [encEntries] at h
    injection h with h2
    subst h2
    rfl
  | cons e r ih =>
    obtain ⟨k, v⟩ := e
    intro bs rest hd h
    simp only [encEntries] at h
    cases hk : encVal k with
    | none => rw [hk] at h; simp [obind_none] at h
    | some kb =>
      rw [hk] at h
      cases hv2 : encVal v with
      | none => rw [hv2] at h; simp [obind_some, obind_none] at h
      | some vb =>
        rw [hv2] at h
        cases hr : encEntries r with
        | none => rw [hr] at h; simp [obind_some, obind_none] at h
        | some rb =>
          rw [hr] at h
          simp only [obind_some] at h
          injection h with h2
          subst h2
          have hdk : depthVal k ≤ fuel := by simp only [depthEntries] at hd; omega
          have hdv : depthVal v ≤ fuel := by simp only [depthEntries] at hd; omega
          have hdr : depthEntries r ≤ fuel := by simp only [depthEntries] at hd; omega
          show decEntriesF (decVal fuel) (r.length + 1) ((kb ++ vb ++ rb) ++ rest) = _
          simp only [decEntriesF]
          rw [List.append_assoc, List.append_assoc]
          rw [hV k kb (vb ++ (rb ++ rest)) hdk hk]
          simp only [obind_some]
          rw [hV v vb (rb ++ rest) hdv hv2]
          simp only [obind_some]
          rw [ih rb rest hdr hr]
          simp only [obind_some]

set_option maxHeartbeats 1600000 in
/-- Round trip of the MessagePack codec: decoding the encoding of a
value, with fuel at least its depth, returns the value and the trailing
bytes. -/
theorem decVal_encVal : ∀ (fuel : Nat) (v : MsgVal) (bs rest : List Nat),
    depthVal v ≤ fuel → encVal v = some bs →
    decVal fuel (bs ++ rest) = some (v, rest) := by
  intro fuel
  induction fuel with
  | zero =>
    intro v bs rest hd _
    have := depthVal_pos v
    omega
  | succ fuel ih =>
    intro v bs rest hd h
    cases v with
    | int n =>
      simp only [encVal] at h
      split at h
      · injection h with h2
        subst h2
        simp only [List.cons_append, List.nil_append]
        rw [decVal_fixint fuel n.toNat rest (by omega)]
        simp only [Option.some.injEq, Prod.mk.injEq, MsgVal.int.injEq]
        exact ⟨by omega, trivial⟩
      · split at h
        · injection h with h2
          subst h2
          simp only [List.cons_append, List.nil_append]
          rw [decVal_negfix fuel _ rest (by omega) (by omega)]
          simp only [Option.some.injEq, Prod.mk.injEq, MsgVal.int.injEq]
          exact ⟨by omega, trivial⟩
        · split at h
          · injection h with h2
            subst h2
            simp only [List.cons_append, List.nil_append]
            rw [decVal_cc]
            simp only [Option.some.injEq, Prod.mk.injEq, MsgVal.int.injEq]
            exact ⟨by omega, trivial⟩
          · split at h
            · injection h with h2
              subst h2
              simp only [be2, List.cons_append, List.nil_append]
              rw [decVal_cd]
              simp only [Option.some.injEq, Prod.mk.injEq, MsgVal.int.injEq]
              exact ⟨by omega, trivial⟩
            · split at h
              · injection h with h2
                subst h2
                simp only [be4, List.cons_append, List.nil_append]
                rw [decVal_ce]
                simp only [Option.some.injEq, Prod.mk.injEq, MsgVal.int.injEq]
                exact ⟨by omega, trivial⟩
              · split at h
                · injection h with h2
                  subst h2
                  simp only [be8, List.cons_append, List.nil_append]
                  rw [decVal_cf]
                  simp only [Option.some.injEq, Prod.mk.injEq, MsgVal.int.injEq]
                  exact ⟨by omega, trivial⟩
                · split at h
                  · injection h with h2
                    subst h2
                    simp only [List.cons_append, List.nil_append]
                    rw [decVal_d0]
                    rw [if_neg (by omega)]
                    simp only [Option.some.injEq, Prod.mk.injEq, MsgVal.int.injEq]
                    exact ⟨by omega, trivial⟩
                  · split at h
                    · injection h with h2
                      subst h2
                      simp only [be2, List.cons_append, List.nil_append]
                      rw [decVal_d1]
                      rw [if_neg (by omega)]
                      simp only [Option.some.injEq, Prod.mk.injEq, MsgVal.int.injEq]
                      exact ⟨by omega, trivial⟩
                    · split at h
                      · injection h with h2
                        subst h2
                        simp only [be4, List.cons_append, List.nil_append]
                        rw [decVal_d2]
                        rw [if_neg (by omega)]
                        simp only [Option.some.injEq, Prod.mk.injEq, MsgVal.int.injEq]
                        exact ⟨by omega, trivial⟩
                      · split at h
                        · injection h with h2
                          subst h2
                          simp only [be8, List.cons_append, List.nil_append]
                          rw [decVal_d3]
                          rw [if_neg (by omega)]
                          simp only [Option.some.injEq, Prod.mk.injEq, MsgVal.int.injEq]
                          exact ⟨by omega, trivial⟩
                        · exact absurd h (by simp)
    | str s =>
      simp only [encVal] at h
      split at h
      · injection h with h2
        subst h2
        simp only [List.cons_append]
        rw [decVal_fixraw fuel _ _ (by omega) (by omega)]
        rw [Nat.add_sub_cancel_left]
        exact decRaw_enc s rest
      · split at h
        · injection h with h2
          subst h2
          simp only [be2, List.cons_append, List.append_assoc, List.nil_append]
          rw [decVal_da]
          rw [show (utf8Encode s).length / 2 ^ 8 % 256 * 2 ^ 8 +
            (utf8Encode s).length % 256 = (utf8Encode s).length from by omega]
          exact decRaw_enc s rest
        · split at h
          · injection h with h2
            subst h2
            simp only [be4, List.cons_append, List.append_assoc, List.nil_append]
            rw [decVal_db]
            rw [show (utf8Encode s).length / 2 ^ 24 % 256 * 2 ^ 24 +
              (utf8Encode s).length / 2 ^ 16 % 256 * 2 ^ 16 +
              (utf8Encode s).length / 2 ^ 8 % 256 * 2 ^ 8 +
              (utf8Encode s).length % 256 = (utf8Encode s).length from by omega]
            exact decRaw_enc s rest
          · exact absurd h (by simp)
    | map kvs =>
      simp only [encVal] at h
      cases hp : encEntries kvs with
      | none => rw [hp] at h; simp [obind_none] at h
      | some payload =>
        rw [hp] at h
        simp only [obind_some] at h
        have hde : depthEntries kvs ≤ fuel := by
          simp only [depthVal] at hd
          omega
        have hE := decEntriesF_enc fuel ih kvs payload rest hde hp
        split at h
        · injection h with h2
          subst h2
          simp only [List.cons_append]
          rw [decVal_fixmap fuel _ _ (by omega) (by omega)]
          rw [Nat.add_sub_cancel_left]
          rw [hE]
          rfl
        · split at h
          · injection h with h2
            subst h2
            simp only [be2, List.cons_append, List.append_assoc, List.nil_append]
            rw [decVal_de]
            rw [show kvs.length / 2 ^ 8 % 256 * 2 ^ 8 + kvs.length % 256 =
              kvs.length from by omega]
            rw [hE]
            rfl
          · split at h
            · injection h with h2
              subst h2
              simp only [be4, List.cons_append, List.append_assoc, List.nil_append]
              rw [decVal_df]
              rw [show kvs.length / 2 ^ 24 % 256 * 2 ^ 24 +
                kvs.length / 2 ^ 16 % 256 * 2 ^ 16 +
                kvs.length / 2 ^ 8 % 256 * 2 ^ 8 + kvs.length % 256 =
                kvs.length from by omega]
              rw [hE]
              rfl
            · exact absurd h (by simp)

/-- Every value occupies at least one `sizeOf` unit. -/
theorem msgval_sizeOf_pos (v : MsgVal) : 1 ≤ sizeOf v := by
  cases v <;> simp_arith

/-- The depth of a value is at most the length of its encoding (each
nesting level contributes at least a header byte). -/
theorem enc_depth_le : ∀ (N : Nat),
    (∀ (v : MsgVal) (bs : List Nat), sizeOf v ≤ N → encVal v = some bs →
      depthVal v ≤ bs.length) ∧
    (∀ (kvs : List (MsgVal × MsgVal)) (bs : List Nat), sizeOf kvs ≤ N →
      encEntries kvs = some bs → depthEntries kvs ≤ bs.length) := by
  intro N
  induction N with
  | zero =>
    constructor
    · intro v bs hs _
      exact absurd hs (by have := msgval_sizeOf_pos v; omega)
    · intro kvs bs hs _
      exact absurd hs (by cases kvs <;> simp_arith)
  | succ N ihN =>
    obtain ⟨ihV, ihE⟩ := ihN
    constructor
    · intro v bs hs h
      cases v with
      | int n =>
        simp only [encVal] at h
        split at h
        · injection h with h2; subst h2; simp [depthVal]
        all_goals split at h
        · injection h with h2; subst h2; simp [depthVal]
        all_goals split at h
        · injection h with h2; subst h2; simp [depthVal]
        all_goals split at h
        · injection h with h2; subst h2; simp [depthVal, be2]
        all_goals split at h
        · injection h with h2; subst h2; simp [depthVal, be4]
        all_goals split at h
        · injection h with h2; subst h2; simp [depthVal, be8]
        all_goals split at h
        · injection h with h2; subst h2; simp [depthVal]
        all_goals split at h
        · injection h with h2; subst h2; simp [depthVal, be2]
        all_goals split at h
        · injection h with h2; subst h2; simp [depthVal, be4]
        all_goals split at h
        · injection h with h2; subst h2; simp [depthVal, be8]
        · exact absurd h (by simp)
      | str s =>
        simp only [encVal] at h
        split at h
        · injection h with h2; subst h2; simp [depthVal]
        all_goals split at h
        · injection h with h2; subst h2; simp [depthVal, be2]
        all_goals split at h
        · injection h with h2; subst h2; simp [depthVal, be4]
        · exact absurd h (by simp)
      | map kvs =>
        simp only [encVal] at h
        cases hp : encEntries kvs with
        | none => rw [hp] at h; simp [obind_none] at h
        | some payload =>
          rw [hp] at h
          simp only [obind_some] at h
          have hkvs : sizeOf kvs ≤ N := by
            have hsz : sizeOf (MsgVal.map kvs) = 1 + sizeOf kvs := by simp
            omega
          have hpl := ihE kvs payload hkvs hp
          split at h
          · injection h with h2; subst h2
            simp only [depthVal, List.length_cons]
            omega
          all_goals split at h
          · injection h with h2; subst h2
            simp only [depthVal, be2, List.cons_append, List.length_cons,
              List.length_append]
            omega
          all_goals split at h
          · injection h with h2; subst h2
            simp only [depthVal, be4, List.cons_append, List.length_cons,
              List.length_append]
            omega
          · exact absurd h (by simp)
    · intro kvs bs hs h
      cases kvs with
      | nil =>
        simp only [encEntries] at h
        injection h with h2
        subst h2
        simp [depthEntries]
      | cons e r =>
        obtain ⟨k, v⟩ := e
        simp only [encEntries] at h
        cases hk : encVal k with
        | none => rw [hk] at h; simp [obind_none] at h
        | some kb =>
          rw [hk] at h
          cases hv2 : encVal v with
          | none => rw [hv2] at h; simp [obind_some, obind_none] at h
          | some vb =>
            rw [hv2] at h
            cases hr : encEntries r with
            | none => rw [hr] at h; simp [obind_some, obind_none] at h
            | some rb =>
              rw [hr] at h
              simp only [obind_some] at h
              injection h with h2
              subst h2
              have hsz1 : sizeOf ((k, v) :: r) = 1 + sizeOf (k, v) + sizeOf r := by simp
              have hsz2 : sizeOf (k, v) = 1 + sizeOf k + sizeOf v := by simp
              have e1 := ihV k kb (by omega) hk
              have e2 := ihV v vb (by omega) hv2
              have e3 := ihE r rb (by omega) hr
              simp only [depthEntries, List.length_append]
              omega

/-- `msgpack.unpackb` inverts `msgpack.packb`: the fuel `length + 1`
always suffices, since the depth of the packed value is bounded by the
length of its encoding. -/
theorem unpackb_enc (v : MsgVal) (bs : List Nat) (h : encVal v = some bs) :
    unpackb bs = some v := by
  have hd : depthVal v ≤ bs.length := (enc_depth_le (sizeOf v)).1 v bs le_rfl h
  have hrt := decVal_encVal (bs.length + 1) v bs [] (by omega) h
  rw [List.append_nil] at hrt
  unfold unpackb
  rw [hrt]

/-- C5 — for every normalized table→row→field structure, encoding it
through the MessagePack export path (the spec-modelled `normalize` step
followed by `msgpack.packb(•, use_bin_type=False)`) and then decoding
the resulting byte stream with a standard MessagePack decoder reproduces
exactly the same nested table→row→field values. -/
theorem claim_c5_msgpack_roundtrip (d : Dataset) (bs : List Nat)
    (h : MessagePackExporter.export d = some bs) :
    unpackb bs = some (Dataset.normalize d) :=
  unpackb_enc (Dataset.normalize d) bs h

/-- Witness for C5: the one-row dataset packs to the 19 bytes shown and
unpacks back to its normalized form. -/
theorem claim_c5_witness :
    unpackb [129, 162, 117, 102, 129, 11, 130, 162, 105, 100, 11, 164, 110,
      111, 109, 101, 162, 82, 79] = some (Dataset.normalize dsExample) :=
  claim_c5_msgpack_roundtrip dsExample
    [129, 162, 117, 102, 129, 11, 130, 162, 105, 100, 11, 164, 110, 111, 109,
      101, 162, 82, 79] rfl
